import Mathlib

/-!
Shallow embedding of the kueue admission core: the flavor assigner
(`pkg/scheduler/flavorassigner`, given here through its sources in
`src/pkg/util/testing/wrappers.go`) and the workload helpers
(`src/pkg/workload/workload.go`).  Quantities are Go `int64` values modelled
as `Int`; Go maps with zero-value defaults are modelled as total functions
or as association lists, each with a fixed (deterministic) iteration order
standing in for Go's unspecified map order.
-/

namespace Kueue

/-- Resource quantities: CPU in milli-units, memory in bytes, others in
their natural unit (Go `int64`). -/
abbrev Qty := Int

/-- Association-list lookup used to model Go map reads that return an
`(value, ok)` pair. -/
def alookup {α : Type} (l : List (String × α)) (k : String) : Option α :=
  (l.find? (fun p => p.1 = k)).map (fun p => p.2)

/-- Go map read with the zero value as default (`m[k]` on a missing key). -/
def alookup0 (l : List (String × Qty)) (k : String) : Qty :=
  (alookup l k).getD 0

/-- `FlavorAssignmentMode` from the assigner: Go `iota` constants ordered
`NoFit < Preempt < Fit`. -/
inductive FlavorAssignmentMode : Type where
  | NoFit : FlavorAssignmentMode
  | Preempt : FlavorAssignmentMode
  | Fit : FlavorAssignmentMode
deriving DecidableEq, Repr

namespace FlavorAssignmentMode

/-- The numeric value of the Go `iota` constant, carrying the order
`NoFit < Preempt < Fit`. -/
def toNat : FlavorAssignmentMode → Nat
  | NoFit => 0
  | Preempt => 1
  | Fit => 2

end FlavorAssignmentMode

/-- Comparison `a < b` on modes as Go compares the `iota` constants. -/
def modeLt (a b : FlavorAssignmentMode) : Prop := a.toNat < b.toNat

instance (a b : FlavorAssignmentMode) : Decidable (modeLt a b) := by
  unfold modeLt; infer_instance

/-- `min` of two modes under `NoFit < Preempt < Fit`, as computed by the
Go pattern `if m < mode { mode = m }`. -/
def modeMin (a b : FlavorAssignmentMode) : FlavorAssignmentMode :=
  if a.toNat ≤ b.toNat then a else b

/-- Minimum mode of a list, starting from `Fit` (the Go accumulation
pattern used by both `RepresentativeMode` methods). -/
def modeListMin (ms : List FlavorAssignmentMode) : FlavorAssignmentMode :=
  ms.foldl modeMin .Fit

/-! ## Workload conditions (`src/pkg/workload/workload.go`) -/

/-- Condition strings used by the core (`kueue.WorkloadAdmitted` etc.). -/
def WorkloadAdmitted : String := "Admitted"

/-- The `Evicted` condition type. -/
def WorkloadEvicted : String := "Evicted"

/-- Eviction reason `kueue.WorkloadEvictedByPodsReadyTimeout`. -/
def WorkloadEvictedByPodsReadyTimeout : String := "PodsReadyTimeout"

/-- Eviction reason `kueue.WorkloadEvictedByPreemption`. -/
def WorkloadEvictedByPreemption : String := "Preempted"

/-- `metav1.Condition`, with times as integers. -/
structure Condition : Type where
  ctype : String
  status : String
  reason : String
  message : String
  lastTransitionTime : Int
deriving DecidableEq, Repr

/-- `kueue.Admission` as far as the workload helpers inspect it. -/
structure Admission : Type where
  clusterQueue : String
deriving DecidableEq, Repr

/-- The workload fields read and written by `workload.go`. -/
structure Workload : Type where
  creationTimestamp : Int
  admission : Option Admission
  conditions : List Condition
deriving DecidableEq, Repr

/-- `apimeta.FindStatusCondition`: first condition with the given type. -/
def FindStatusCondition (conds : List Condition) (t : String) : Option Condition :=
  conds.find? (fun c => c.ctype = t)

/-- `apimeta.SetStatusCondition`: update the first condition of the same
type in place (refreshing `LastTransitionTime` only when the status
changes), or append the new condition when none exists. -/
def SetStatusCondition (conds : List Condition) (c : Condition) : List Condition :=
  match conds with
  | [] => [c]
  | e :: rest =>
    if e.ctype = c.ctype then
      { e with
        status := c.status
        reason := c.reason
        message := c.message
        lastTransitionTime :=
          if e.status ≠ c.status then c.lastTransitionTime else e.lastTransitionTime } :: rest
    else e :: SetStatusCondition rest c

/-- `apimeta.IsStatusConditionTrue`. -/
def IsStatusConditionTrue (conds : List Condition) (t : String) : Bool :=
  match FindStatusCondition conds t with
  | some c => c.status = "True"
  | none => false

/-- `workload.GetQueueOrderTimestamp`: the Evicted transition time when the
workload was evicted by PodsReady timeout, else the creation timestamp. -/
def GetQueueOrderTimestamp (w : Workload) : Int :=
  match FindStatusCondition w.conditions WorkloadEvicted with
  | some c =>
    if c.status = "True" ∧ c.reason = WorkloadEvictedByPodsReadyTimeout then
      c.lastTransitionTime
    else w.creationTimestamp
  | none => w.creationTimestamp

/-- In-place reset of the first `Evicted` condition, as `SetAdmission` does
through the pointer returned by `FindStatusCondition`. -/
def resetEvictedCondition (conds : List Condition) (now : Int) : List Condition :=
  match conds with
  | [] => []
  | e :: rest =>
    if e.ctype = WorkloadEvicted then
      { e with status := "False", lastTransitionTime := now } :: rest
    else e :: resetEvictedCondition rest now

/-- `workload.SetAdmission`: store the admission, set `Admitted=True`, and
reset an existing `Evicted` condition. `now` models `metav1.Now()`. -/
def SetAdmission (w : Workload) (admission : Admission) (now : Int) : Workload :=
  let admittedCond : Condition :=
    { ctype := WorkloadAdmitted
      status := "True"
      reason := "Admitted"
      message := "Admitted by ClusterQueue " ++ admission.clusterQueue
      lastTransitionTime := now }
  let conds := SetStatusCondition w.conditions admittedCond
  let conds :=
    if (FindStatusCondition conds WorkloadEvicted).isSome then
      resetEvictedCondition conds now
    else conds
  { w with admission := some admission, conditions := conds }

/-- `workload.UnsetAdmissionWithCondition`: set `Admitted=False` and clear
the admission. -/
def UnsetAdmissionWithCondition (w : Workload) (reason message : String) (now : Int) : Workload :=
  let cond : Condition :=
    { ctype := WorkloadAdmitted
      status := "False"
      reason := reason
      message := message
      lastTransitionTime := now }
  { w with
    conditions := SetStatusCondition w.conditions cond
    admission := none }

/-- `workload.IsAdmitted`. -/
def IsAdmitted (w : Workload) : Bool :=
  IsStatusConditionTrue w.conditions WorkloadAdmitted

/-! ## Flavors, taints and node affinity

`corev1.Taint` / `corev1.Toleration` and the node-affinity matching are
external Kubernetes helpers (`component-helpers/scheduling/corev1`); they
are embedded here with their documented semantics so the assigner's gates
are executable.  Numeric selector operators (`Gt`/`Lt`) are outside the
model; no claim involves them. -/

/-- `corev1.Taint` (the `TimeAdded` field is never read by the core). -/
structure Taint : Type where
  key : String
  value : String
  effect : String
deriving DecidableEq, Repr

/-- `corev1.Toleration`. -/
structure Toleration : Type where
  key : String
  operator : String
  value : String
  effect : String
deriving DecidableEq, Repr

/-- `corev1.Toleration.ToleratesTaint`. -/
def Toleration.toleratesTaint (t : Toleration) (taint : Taint) : Bool :=
  if t.effect ≠ "" ∧ t.effect ≠ taint.effect then false
  else if t.key ≠ "" ∧ t.key ≠ taint.key then false
  else if t.operator = "" ∨ t.operator = "Equal" then t.value = taint.value
  else if t.operator = "Exists" then true
  else false

/-- The taint filter used by the assigner: only `NoSchedule` and
`NoExecute` taints gate scheduling. -/
def scheduleBlocking (t : Taint) : Bool :=
  t.effect = "NoSchedule" ∨ t.effect = "NoExecute"

/-- `corev1helpers.FindMatchingUntoleratedTaint` with the assigner's
filter: the first blocking taint no toleration tolerates. -/
def FindMatchingUntoleratedTaint (taints : List Taint) (tolerations : List Toleration) :
    Option Taint :=
  (taints.filter scheduleBlocking).find? (fun taint =>
    ¬ tolerations.any (fun tol => tol.toleratesTaint taint))

/-- `corev1.NodeSelectorRequirement`. -/
structure NodeSelectorRequirement : Type where
  key : String
  operator : String
  values : List String
deriving DecidableEq, Repr

/-- `corev1.NodeSelectorTerm` (only `MatchExpressions` is used here). -/
structure NodeSelectorTerm : Type where
  matchExpressions : List NodeSelectorRequirement
deriving DecidableEq, Repr

/-- The parts of `corev1.PodSpec` the assigner reads: node selector,
required node-affinity terms (`none` when the pod has no required node
affinity) and tolerations. -/
structure PodSpec : Type where
  nodeSelector : List (String × String)
  affinityTerms : Option (List NodeSelectorTerm)
  tolerations : List Toleration
deriving DecidableEq, Repr

/-- One requirement evaluated against node labels
(`labels.Selector` semantics for `In`, `NotIn`, `Exists`,
`DoesNotExist`). -/
def reqMatches (e : NodeSelectorRequirement) (labels : List (String × String)) : Bool :=
  match e.operator with
  | "In" =>
    match alookup labels e.key with
    | some v => e.values.contains v
    | none => false
  | "NotIn" =>
    match alookup labels e.key with
    | some v => ¬ e.values.contains v
    | none => false
  | "Exists" => (alookup labels e.key).isSome
  | "DoesNotExist" => (alookup labels e.key).isNone
  | _ => false

/-- A node-selector term matches when every expression matches; an empty
term matches no objects (`nodeaffinity` package semantics). -/
def termMatches (t : NodeSelectorTerm) (labels : List (String × String)) : Bool :=
  ¬ t.matchExpressions.isEmpty ∧ t.matchExpressions.all (fun e => reqMatches e labels)

/-- The value of `nodeaffinity.GetRequiredNodeAffinity` on the filtered
spec built by `flavorSelector`: the node selector and the optional
required terms. -/
structure RequiredNodeAffinity : Type where
  nodeSelector : List (String × String)
  affinityTerms : Option (List NodeSelectorTerm)
deriving DecidableEq, Repr

/-- `RequiredNodeAffinity.Match` against a node carrying the flavor's
labels: every node-selector entry must be present, and, when required
terms exist, some term must match (terms are ORed). -/
def RequiredNodeAffinity.Match (s : RequiredNodeAffinity) (labels : List (String × String)) :
    Bool :=
  s.nodeSelector.all (fun kv => alookup labels kv.1 = some kv.2) &&
    match s.affinityTerms with
    | none => true
    | some terms => terms.any (fun t => termMatches t labels)

/-- The term-filtering loop of `flavorSelector`: drop match expressions
with keys outside `allowedKeys`; if any term becomes empty the whole list
is discarded (`termsCopy = nil; break`). -/
def filterTerms (allowedKeys : List String) :
    List NodeSelectorTerm → Option (List NodeSelectorTerm)
  | [] => some []
  | t :: rest =>
    let expCopy := t.matchExpressions.filter (fun e => allowedKeys.contains e.key)
    if expCopy.isEmpty then none
    else
      match filterTerms allowedKeys rest with
      | none => none
      | some ts => some ({ matchExpressions := expCopy } :: ts)

/-- `flavorSelector`: restrict the pod's node selector and required
node-affinity terms to the label keys of the resource group's flavors. -/
def flavorSelector (spec : PodSpec) (allowedKeys : List String) : RequiredNodeAffinity :=
  { nodeSelector := spec.nodeSelector.filter (fun kv => allowedKeys.contains kv.1)
    affinityTerms :=
      match spec.affinityTerms with
      | none => none
      | some terms =>
        match filterTerms allowedKeys terms with
        | none => none
        | some [] => none
        | some ts => some ts }

/-! ## ClusterQueue snapshot model (`pkg/cache` shapes read by the assigner) -/

/-- `cache.ResourceQuota`. -/
structure ResourceQuota : Type where
  Nominal : Qty
  BorrowingLimit : Option Qty
deriving DecidableEq, Repr

/-- `cache.FlavorQuotas`: a flavor's quotas inside one resource group. -/
structure FlavorQuotas : Type where
  Name : String
  Resources : List (String × ResourceQuota)
deriving DecidableEq, Repr

/-- `cache.ResourceGroup`.  `LabelKeys` is the set of label keys of the
group's flavors, as filled in by the cache. -/
structure ResourceGroup : Type where
  CoveredResources : List String
  Flavors : List FlavorQuotas
  LabelKeys : List String
deriving DecidableEq, Repr

/-- `cache.Cohort` aggregates, read with Go zero-value defaults. -/
structure Cohort : Type where
  RequestableResources : String → String → Qty
  Usage : String → String → Qty

/-- `cache.ClusterQueue` as read by the assigner. -/
structure ClusterQueue : Type where
  ResourceGroups : List ResourceGroup
  Usage : String → String → Qty
  Cohort : Option Cohort

/-- Modelled from the spec: the cache's `RGByResource` index, missing from
`src/` (built by `ClusterQueue.UpdateRGByResource` in `pkg/cache`).  A
resource maps to the group covering it; a resource covered by no group is
absent, which is what "resource … unavailable in ClusterQueue" detects. -/
def rgByResource (cq : ClusterQueue) (r : String) : Option ResourceGroup :=
  cq.ResourceGroups.find? (fun rg => rg.CoveredResources.contains r)

/-- `workload.ResourceQuantity(...).String()` is external apimachinery
formatting; this renderer covers the milli-CPU and binary-memory cases the
tests exercise.  No claim depends on the rendered number. -/
def resourceQuantityStr (rName : String) (v : Qty) : String :=
  if rName = "cpu" then
    if v % 1000 = 0 then toString (v / 1000) else toString v ++ "m"
  else if rName = "memory" ∨ rName = "ephemeral-storage" then
    if v % 1073741824 = 0 then toString (v / 1073741824) ++ "Gi"
    else if v % 1048576 = 0 then toString (v / 1048576) ++ "Mi"
    else if v % 1024 = 0 then toString (v / 1024) ++ "Ki"
    else toString v
  else toString v

/-- `Status` from the assigner; the `err` field is omitted because the
only error source (a malformed selector) cannot arise in this total
embedding, so `Status.IsError()` is identically false. -/
structure Status : Type where
  reasons : List String
deriving DecidableEq, Repr

/-- The candidate mode computed at the top of `fitsResourceQuota`: at
least `Preempt` when the request alone fits within the nominal quota. -/
def candidateMode (val nominal : Qty) : FlavorAssignmentMode :=
  if val ≤ nominal then .Preempt else .NoFit

/-- The `cohortUsed` local of `fitsResourceQuota`: cohort usage, or the
ClusterQueue usage when there is no cohort. -/
def cohortUsedVal (cq : ClusterQueue) (fName rName : String) : Qty :=
  match cq.Cohort with
  | some c => c.Usage fName rName
  | none => cq.Usage fName rName

/-- The `cohortAvailable` local of `fitsResourceQuota`: cohort requestable
resources, or the nominal quota when there is no cohort. -/
def cohortAvailableVal (cq : ClusterQueue) (fName rName : String) (nominal : Qty) : Qty :=
  match cq.Cohort with
  | some c => c.RequestableResources fName rName
  | none => nominal

/-- The part of `fitsResourceQuota` after the borrowing-limit early
return: compare against the cohort headroom. -/
def fitsCohort (fName rName : String) (val : Qty) (cq : ClusterQueue)
    (rQuota : ResourceQuota) : FlavorAssignmentMode × Qty × Option Status :=
  let used := cq.Usage fName rName
  let mode := candidateMode val rQuota.Nominal
  let lack := cohortUsedVal cq fName rName + val - cohortAvailableVal cq fName rName rQuota.Nominal
  if lack ≤ 0 then
    let borrow := used + val - rQuota.Nominal
    (.Fit, if borrow < 0 then 0 else borrow, none)
  else
    let lackStr := resourceQuantityStr rName lack
    let msg :=
      match cq.Cohort with
      | some _ =>
        "insufficient unused quota in cohort for " ++ rName ++ " in flavor " ++ fName ++
          ", " ++ lackStr ++ " more needed"
      | none =>
        if mode = .NoFit then
          "insufficient quota for " ++ rName ++ " in flavor " ++ fName ++ " in ClusterQueue"
        else
          "insufficient unused quota for " ++ rName ++ " in flavor " ++ fName ++
            ", " ++ lackStr ++ " more needed"
    (mode, 0, some { reasons := [msg] })

/-- `fitsResourceQuota`: how a flavor could be assigned to a resource given
the requested value (already including this workload's usage from earlier
pod sets), the ClusterQueue usage and the cohort aggregates.  In Go a
ClusterQueue whose group lists a flavor without this resource would panic
on a nil `rQuota`; callers pass the looked-up quota with a zero default
instead, a state a well-formed cache never produces. -/
def fitsResourceQuota (fName rName : String) (val : Qty) (cq : ClusterQueue)
    (rQuota : ResourceQuota) : FlavorAssignmentMode × Qty × Option Status :=
  match rQuota.BorrowingLimit with
  | some bl =>
    if cq.Usage fName rName + val > rQuota.Nominal + bl then
      (candidateMode val rQuota.Nominal, 0,
        some { reasons := ["borrowing limit for " ++ rName ++ " in flavor " ++ fName ++ " exceeded"] })
    else fitsCohort fName rName val cq rQuota
  | none => fitsCohort fName rName val cq rQuota

/-! ## The flavor assigner -/

/-- `FlavorAssignment`. -/
structure FlavorAssignment : Type where
  Name : String
  Mode : FlavorAssignmentMode
  borrow : Qty
deriving DecidableEq, Repr

/-- `ResourceAssignment`: resource name → flavor assignment, as an
association list in a fixed iteration order. -/
abbrev ResourceAssignment := List (String × FlavorAssignment)

/-- Go map write `ra[k] = v`: overwrite in place or append. -/
def RAinsert (ra : ResourceAssignment) (k : String) (v : FlavorAssignment) :
    ResourceAssignment :=
  if (alookup ra k).isSome then
    ra.map (fun p => if p.1 = k then (k, v) else p)
  else ra ++ [(k, v)]

/-- `workload.Requests`: resource name → total requested quantity. -/
abbrev Requests := List (String × Qty)

/-- `filterRequestedResources`. -/
def filterRequestedResources (req : Requests) (allowList : List String) : Requests :=
  req.filter (fun p => allowList.contains p.1)

/-- `PodSetAssignment`.  Go's nil and empty `Flavors` maps are both `[]`
(only `len` is observed once a pod-set assignment is final). -/
structure PodSetAssignment : Type where
  Name : String
  Flavors : ResourceAssignment
  Status : Option Status
  Requests : Requests
deriving DecidableEq, Repr

/-- `PodSetAssignment.RepresentativeMode`: `Fit` with no status, `NoFit`
with a status but no flavors, else the minimum mode over the assigned
flavors. -/
def PodSetAssignment.RepresentativeMode (psa : PodSetAssignment) : FlavorAssignmentMode :=
  match psa.Status with
  | none => .Fit
  | some _ =>
    if psa.Flavors.isEmpty then .NoFit
    else psa.Flavors.foldl (fun m p => modeMin m p.2.Mode) .Fit

/-- `PodSetAssignment.append`: merge the flavors found for one resource
group and accumulate the status reasons. -/
def PodSetAssignment.append (psa : PodSetAssignment) (flavors : ResourceAssignment)
    (status : Option Kueue.Status) : PodSetAssignment :=
  let merged := flavors.foldl (fun ra p => RAinsert ra p.1 p.2) psa.Flavors
  let st :=
    match psa.Status, status with
    | none, s => s
    | some s0, none => some s0
    | some s0, some s => some { reasons := s0.reasons ++ s.reasons }
  { psa with Flavors := merged, Status := st }

/-- `Assignment`.  `usage` is the intra-workload usage accumulated as pod
sets get flavors assigned; the Go memoisation field `representativeMode`
is dropped (the method is pure). -/
structure Assignment : Type where
  PodSets : List PodSetAssignment
  TotalBorrow : List ((String × String) × Qty)
  usage : String → String → Qty

/-- `Assignment.RepresentativeMode`: `NoFit` when no assignments were
calculated, else the worst pod-set mode. -/
def Assignment.RepresentativeMode (a : Assignment) : FlavorAssignmentMode :=
  if a.PodSets.isEmpty then .NoFit
  else a.PodSets.foldl (fun m ps => modeMin m ps.RepresentativeMode) .Fit

/-- Nested Go map write `TotalBorrow[f][r] = v`, flattened. -/
def upsertBorrow (tb : List ((String × String) × Qty)) (k : String × String) (v : Qty) :
    List ((String × String) × Qty) :=
  if (tb.find? (fun p => p.1 = k)).isSome then
    tb.map (fun p => if p.1 = k then (k, v) else p)
  else tb ++ [(k, v)]

/-- Pointwise update of a usage function: `usage[f][r] += v`. -/
def addUsage (u : String → String → Qty) (f r : String) (v : Qty) :
    String → String → Qty :=
  fun f2 r2 => if f2 = f ∧ r2 = r then u f2 r2 + v else u f2 r2

/-- `Assignment.append`: record the pod-set assignment, its borrowing
(the returned `borrow` already considers usage from previous pod sets, so
it is stored, not accumulated) and its usage. -/
def Assignment.append (a : Assignment) (requests : Requests)
    (psa : PodSetAssignment) : Assignment :=
  { PodSets := a.PodSets ++ [psa]
    TotalBorrow :=
      psa.Flavors.foldl
        (fun tb p => if p.2.borrow > 0 then upsertBorrow tb (p.2.Name, p.1) p.2.borrow else tb)
        a.TotalBorrow
    usage :=
      psa.Flavors.foldl
        (fun u p => addUsage u p.2.Name p.1 (alookup0 requests p.1))
        a.usage }

/-- The quota a flavor's quota table gives for a resource.  Go would
dereference a nil pointer when the resource is absent; the zero quota
stands in for that impossible state. -/
def quotaOf (flvRes : List (String × ResourceQuota)) (rName : String) : ResourceQuota :=
  (alookup flvRes rName).getD { Nominal := 0, BorrowingLimit := none }

/-- The per-resource loop inside `findFlavorForResourceGroup` for one
flavor: run the fit check on each request (on top of the usage from
earlier pod sets), track the worst mode, break on `NoFit`, and collect
the status reasons. -/
def flavorFitLoop (fName : String) (flvRes : List (String × ResourceQuota))
    (cq : ClusterQueue) (usage : String → String → Qty)
    (repMode : FlavorAssignmentMode) :
    Requests → ResourceAssignment × FlavorAssignmentMode × List String
  | [] => ([], repMode, [])
  | (rName, val) :: rest =>
    let res := fitsResourceQuota fName rName (val + usage fName rName) cq (quotaOf flvRes rName)
    let sReasons :=
      match res.2.2 with
      | some s => s.reasons
      | none => []
    let repMode2 := modeMin res.1 repMode
    if repMode2 = .NoFit then ([], .NoFit, sReasons)
    else
      let next := flavorFitLoop fName flvRes cq usage repMode2 rest
      ((rName, { Name := fName, Mode := res.1, borrow := res.2.1 }) :: next.1,
        next.2.1, sReasons ++ next.2.2)

/-- The gate checks and fit evaluation for one flavor of a resource group:
either the flavor is skipped with a reason, or it is evaluated to a
candidate assignment with its pod-set-level mode and fit-check reasons. -/
inductive FlavorResult : Type where
  | skipped (reason : String) : FlavorResult
  | evaluated (assignments : ResourceAssignment) (mode : FlavorAssignmentMode)
      (reasons : List String) : FlavorResult
deriving DecidableEq, Repr

/-- Go struct printing of a taint (`%s` on `corev1.Taint`), as it appears
in the "untolerated taint" reason. -/
def taintStr (t : Taint) : String :=
  "\x7b" ++ t.key ++ " " ++ t.value ++ " " ++ t.effect ++ " <nil>\x7d"

/-- One iteration of the flavor loop in `findFlavorForResourceGroup`:
unknown flavors, untolerated taints and unmatched affinity skip the
flavor; otherwise the per-resource fit loop runs. -/
def tryFlavor (resourceFlavors : String → Option (List (String × String) × List Taint))
    (cq : ClusterQueue) (usage : String → String → Qty) (spec : PodSpec)
    (selector : RequiredNodeAffinity) (requests : Requests)
    (flvQuotas : FlavorQuotas) : FlavorResult :=
  match resourceFlavors flvQuotas.Name with
  | none => .skipped ("flavor " ++ flvQuotas.Name ++ " not found")
  | some flavor =>
    match FindMatchingUntoleratedTaint flavor.2 spec.tolerations with
    | some taint =>
      .skipped ("untolerated taint " ++ taintStr taint ++ " in flavor " ++ flvQuotas.Name)
    | none =>
      if ¬ selector.Match flavor.1 then
        .skipped ("flavor " ++ flvQuotas.Name ++ " doesn\x27t match node affinity")
      else
        let r := flavorFitLoop flvQuotas.Name flvQuotas.Resources cq usage .Fit requests
        .evaluated r.1 r.2.1 r.2.2

/-- The flavor loop of `findFlavorForResourceGroup`: iterate the group's
flavors in declared order, keep the best assignment on strict mode
improvement, return immediately with no status on `Fit`, and accumulate
every reason otherwise. -/
def findFlavorLoop (resourceFlavors : String → Option (List (String × String) × List Taint))
    (cq : ClusterQueue) (usage : String → String → Qty) (spec : PodSpec)
    (selector : RequiredNodeAffinity) (requests : Requests) :
    List FlavorQuotas → ResourceAssignment → FlavorAssignmentMode → List String →
      ResourceAssignment × Option Status
  | [], best, _bestMode, reasons => (best, some { reasons := reasons })
  | flvQuotas :: rest, best, bestMode, reasons =>
    match tryFlavor resourceFlavors cq usage spec selector requests flvQuotas with
    | .skipped r =>
      findFlavorLoop resourceFlavors cq usage spec selector requests rest best bestMode
        (reasons ++ [r])
    | .evaluated assignments mode rs =>
      let reasons2 := reasons ++ rs
      if bestMode.toNat < mode.toNat then
        if mode = .Fit then (assignments, none)
        else findFlavorLoop resourceFlavors cq usage spec selector requests rest
          assignments mode reasons2
      else
        findFlavorLoop resourceFlavors cq usage spec selector requests rest best bestMode
          reasons2

/-- `findFlavorForResourceGroup`: filter the requests to the group's
covered resources, build the filtered selector, and run the flavor loop
from an empty best assignment at mode `NoFit`. -/
def findFlavorForResourceGroup
    (resourceFlavors : String → Option (List (String × String) × List Taint))
    (cq : ClusterQueue) (usage : String → String → Qty) (rg : ResourceGroup)
    (requests : Requests) (spec : PodSpec) : ResourceAssignment × Option Status :=
  let requests := filterRequestedResources requests rg.CoveredResources
  let selector := flavorSelector spec rg.LabelKeys
  findFlavorLoop resourceFlavors cq usage spec selector requests rg.Flavors [] .NoFit []

/-- The per-resource loop of `AssignFlavors` for one pod set: skip
resources already assigned through their group, fail on resources no
group covers, fail when a group finds no flavor, and otherwise merge the
group's assignment into the pod-set assignment. -/
def psLoop (resourceFlavors : String → Option (List (String × String) × List Taint))
    (cq : ClusterQueue) (usage : String → String → Qty) (spec : PodSpec)
    (allRequests : Requests) (psa : PodSetAssignment) :
    Requests → PodSetAssignment
  | [] => psa
  | (resName, _) :: rest =>
    if (alookup psa.Flavors resName).isSome then
      psLoop resourceFlavors cq usage spec allRequests psa rest
    else
      match rgByResource cq resName with
      | none =>
        { psa with
          Flavors := []
          Status := some { reasons := ["resource " ++ resName ++ " unavailable in ClusterQueue"] } }
      | some rg =>
        let r := findFlavorForResourceGroup resourceFlavors cq usage rg allRequests spec
        if r.1.isEmpty then { psa with Flavors := [], Status := r.2 }
        else psLoop resourceFlavors cq usage spec allRequests (psa.append r.1 r.2) rest

/-- One pod set of a workload as the assigner consumes it: the name, the
count (for the `pods` pseudo-resource), the pod template spec and the
computed total requests (`workload.Info.TotalRequests[i]` paired with
`Spec.PodSets[i]`). -/
structure PodSetInfo : Type where
  Name : String
  Count : Qty
  Spec : PodSpec
  Requests : Requests
deriving DecidableEq, Repr

/-- Go map write `requests[pods] = count`: overwrite or append. -/
def setRequest (reqs : Requests) (k : String) (v : Qty) : Requests :=
  if (alookup reqs k).isSome then
    reqs.map (fun p => if p.1 = k then (k, v) else p)
  else reqs ++ [(k, v)]

/-- The `pods` pseudo-resource name (`corev1.ResourcePods`). -/
def resourcePods : String := "pods"

/-- The pod-set loop of `AssignFlavors`: inject the `pods` pseudo-resource
when the ClusterQueue covers it, assign each pod set, and stop early when
a pod set with requests ends with no flavors. -/
def assignLoop (resourceFlavors : String → Option (List (String × String) × List Taint))
    (cq : ClusterQueue) (a : Assignment) : List PodSetInfo → Assignment
  | [] => a
  | podSet :: rest =>
    let requests :=
      if (rgByResource cq resourcePods).isSome then
        setRequest podSet.Requests resourcePods podSet.Count
      else podSet.Requests
    let psa0 : PodSetAssignment :=
      { Name := podSet.Name, Flavors := [], Status := none, Requests := requests }
    let psa := psLoop resourceFlavors cq a.usage podSet.Spec requests psa0 requests
    let a2 := a.append requests psa
    if ¬ requests.isEmpty ∧ psa.Flavors.isEmpty then { a2 with TotalBorrow := [] }
    else assignLoop resourceFlavors cq a2 rest

/-- `AssignFlavors`: assign flavors to every resource of every pod set of
the workload against the ClusterQueue snapshot. -/
def AssignFlavors (resourceFlavors : String → Option (List (String × String) × List Taint))
    (cq : ClusterQueue) (podSets : List PodSetInfo) : Assignment :=
  assignLoop resourceFlavors cq
    { PodSets := [], TotalBorrow := [], usage := fun _ _ => 0 } podSets

/-- The keys of an association list. -/
def keysOf {α : Type} (l : List (String × α)) : List String :=
  l.map (fun p => p.1)

/-- A flavor-assignment entry `(r, fa)` of a computed pod-set assignment
is justified: it was produced by a fit check of the requested value for
`r` (on top of the accumulated usage) against the quota that the group
covering `r` carries for the flavor named `fa.Name`. -/
def entryJustified (cq : ClusterQueue) (usage : String → String → Qty)
    (allRequests : Requests) (r : String) (fa : FlavorAssignment) : Prop :=
  ∃ rg, rg ∈ cq.ResourceGroups ∧ r ∈ rg.CoveredResources ∧
    ∃ fq, fq ∈ rg.Flavors ∧ fq.Name = fa.Name ∧
      ∃ v, (r, v) ∈ allRequests ∧
        ∃ st, fitsResourceQuota fa.Name r (v + usage fa.Name r) cq (quotaOf fq.Resources r) =
          (fa.Mode, fa.borrow, st)

/-- The quota bounds a committed usage must respect for `(f, r)`: the
borrowing limit of the covering group's quota for flavor `f` (when set)
and the cohort's requestable resources. -/
def usageWithinLimits (cq : ClusterQueue) (f r : String) (t : Qty) : Prop :=
  (∀ rg ∈ cq.ResourceGroups, r ∈ rg.CoveredResources →
    ∀ fq ∈ rg.Flavors, fq.Name = f →
      ∀ bl, (quotaOf fq.Resources r).BorrowingLimit = some bl →
        cq.Usage f r + t ≤ (quotaOf fq.Resources r).Nominal + bl) ∧
  (∀ c, cq.Cohort = some c → c.Usage f r + t ≤ c.RequestableResources f r)

/-- All pod sets of an assignment have representative mode `Fit`. -/
def allPodSetsFit (a : Assignment) : Prop :=
  ∀ psa ∈ a.PodSets, psa.RepresentativeMode = .Fit

/-- Invariant: when a computed pod-set assignment has no status, every
assigned flavor has mode `Fit`. -/
def statusFitInv (a : Assignment) : Prop :=
  ∀ psa ∈ a.PodSets, psa.Status = none →
    ∀ r fa, (r, fa) ∈ psa.Flavors → fa.Mode = .Fit

/-- Invariant: a computed pod-set assignment that did not fail covers
every requested resource of its pod set. -/
def coverInv (a : Assignment) : Prop :=
  ∀ psa ∈ a.PodSets, (psa.Flavors ≠ [] ∨ psa.Status = none) →
    ∀ r v, (r, v) ∈ psa.Requests → (alookup psa.Flavors r).isSome

/-- Invariant: if every pod set fits, the accumulated intra-workload
usage respects the borrowing limits and the cohort capacity. -/
def usageJustifiedInv (cq : ClusterQueue) (a : Assignment) : Prop :=
  allPodSetsFit a → ∀ f r, a.usage f r = 0 ∨ usageWithinLimits cq f r (a.usage f r)

/-- Whether a flavor evaluates (past all gates) to pod-set-level mode
`Fit` in the given context. -/
def isFitFlavor (resourceFlavors : String → Option (List (String × String) × List Taint))
    (cq : ClusterQueue) (usage : String → String → Qty) (spec : PodSpec)
    (selector : RequiredNodeAffinity) (requests : Requests) (flvQuotas : FlavorQuotas) : Bool :=
  match tryFlavor resourceFlavors cq usage spec selector requests flvQuotas with
  | .evaluated _ m _ => m = .Fit
  | .skipped _ => false

/-- Whether a flavor evaluates to pod-set-level mode `Preempt`. -/
def isPreemptFlavor (resourceFlavors : String → Option (List (String × String) × List Taint))
    (cq : ClusterQueue) (usage : String → String → Qty) (spec : PodSpec)
    (selector : RequiredNodeAffinity) (requests : Requests) (flvQuotas : FlavorQuotas) : Bool :=
  match tryFlavor resourceFlavors cq usage spec selector requests flvQuotas with
  | .evaluated _ m _ => m = .Preempt
  | .skipped _ => false

/-- The candidate assignment a flavor evaluates to (empty when skipped). -/
def evalAssignments (resourceFlavors : String → Option (List (String × String) × List Taint))
    (cq : ClusterQueue) (usage : String → String → Qty) (spec : PodSpec)
    (selector : RequiredNodeAffinity) (requests : Requests) (flvQuotas : FlavorQuotas) :
    ResourceAssignment :=
  match tryFlavor resourceFlavors cq usage spec selector requests flvQuotas with
  | .evaluated assignments _ _ => assignments
  | .skipped _ => []

/-- The reasons one flavor contributes to the accumulated status. -/
def flavorReasons (resourceFlavors : String → Option (List (String × String) × List Taint))
    (cq : ClusterQueue) (usage : String → String → Qty) (spec : PodSpec)
    (selector : RequiredNodeAffinity) (requests : Requests) (flvQuotas : FlavorQuotas) :
    List String :=
  match tryFlavor resourceFlavors cq usage spec selector requests flvQuotas with
  | .evaluated _ _ reasons => reasons
  | .skipped reason => [reason]

/-! ## Basic lemmas on the embedding -/

theorem alookup_cons {α : Type} (k : String) (v : α) (l : List (String × α)) (k2 : String) :
    alookup ((k, v) :: l) k2 = if k = k2 then some v else alookup l k2 := by
  by_cases h : k = k2 <;> simp [alookup, List.find?, h]

theorem alookup_nil {α : Type} (k : String) : alookup ([] : List (String × α)) k = none := rfl

theorem alookup_mem {α : Type} {l : List (String × α)} {k : String} {v : α}
    (h : alookup l k = some v) : (k, v) ∈ l := by
  unfold alookup at h
  rcases hf : l.find? (fun p => p.1 = k) with _ | p
  · rw [hf] at h; simp at h
  · rw [hf] at h
    simp at h
    have hmem := List.mem_of_find?_eq_some hf
    have hp := List.find?_some hf
    simp at hp
    rcases p with ⟨k2, v2⟩
    simp at hp h
    subst hp; subst h; exact hmem

theorem alookup_isSome_of_mem {α : Type} {l : List (String × α)} {k : String} {v : α}
    (h : (k, v) ∈ l) : (alookup l k).isSome := by
  unfold alookup
  have hf : (l.find? (fun p => p.1 = k)).isSome := by
    rw [List.find?_isSome]
    exact ⟨(k, v), h, by simp⟩
  rcases Option.isSome_iff_exists.mp hf with ⟨p, hp⟩
  simp [hp]

theorem alookup_eq_some_of_mem_nodup {α : Type} {l : List (String × α)} {k : String} {v : α}
    (hn : (l.map (fun p => p.1)).Nodup) (h : (k, v) ∈ l) : alookup l k = some v := by
  induction l with
  | nil => simp at h
  | cons p rest ih =>
    rcases p with ⟨k1, v1⟩
    rw [List.map_cons, List.nodup_cons] at hn
    rw [List.mem_cons] at h
    rcases h with h | h
    · rw [Prod.mk.injEq] at h
      rw [alookup_cons, if_pos h.1.symm, h.2]
    · have hk : k1 ≠ k := by
        intro he
        apply hn.1
        subst he
        exact List.mem_map.mpr ⟨(k1, v), h, rfl⟩
      rw [alookup_cons, if_neg hk]
      exact ih hn.2 h

theorem alookup0_eq_of_mem_nodup {l : List (String × Qty)} {k : String} {v : Qty}
    (hn : (l.map (fun p => p.1)).Nodup) (h : (k, v) ∈ l) : alookup0 l k = v := by
  unfold alookup0
  rw [alookup_eq_some_of_mem_nodup hn h]
  rfl

/-- Modes are determined by their `iota` value. -/
theorem modeToNat_inj (a b : FlavorAssignmentMode) (h : a.toNat = b.toNat) : a = b := by
  cases a <;> cases b <;> simp_all [FlavorAssignmentMode.toNat]

theorem modeMin_eq_fit (a b : FlavorAssignmentMode) :
    modeMin a b = .Fit ↔ a = .Fit ∧ b = .Fit := by
  cases a <;> cases b <;> simp [modeMin, FlavorAssignmentMode.toNat]

theorem foldl_modeMin_eq_fit (ms : List FlavorAssignmentMode) (init : FlavorAssignmentMode)
    (h : ms.foldl modeMin init = .Fit) : init = .Fit ∧ ∀ m ∈ ms, m = .Fit := by
  induction ms generalizing init with
  | nil => exact ⟨h, by simp⟩
  | cons m rest ih =>
    simp only [List.foldl_cons] at h
    obtain ⟨hmin, hall⟩ := ih (modeMin init m) h
    rw [modeMin_eq_fit] at hmin
    refine ⟨hmin.1, ?_⟩
    intro m2 hm2
    rw [List.mem_cons] at hm2
    rcases hm2 with hm2 | hm2
    · rw [hm2]; exact hmin.2
    · exact hall m2 hm2

/-! ## C2: the fit check -/

/-- C2: for every fit check of value `val` for resource `rName` on flavor
`fName`: when a borrowing limit is set and `used + val` exceeds
`Nominal + BorrowingLimit` the result keeps the candidate mode (`Preempt`
iff `val ≤ Nominal`) with borrow `0` and the "borrowing limit … exceeded"
reason, and is never `Fit`; otherwise, when the cohort has room
(`cohortUsed + val ≤ cohortAvailable`, which collapse to the ClusterQueue
numbers without a cohort) the result is `Fit` with
`borrow = max 0 (used + val − Nominal)`; otherwise the result keeps the
candidate mode with borrow `0` and an insufficient-quota reason. -/
theorem fitsResourceQuota_spec (fName rName : String) (val : Qty) (cq : ClusterQueue)
    (rQuota : ResourceQuota) :
    (∀ bl, rQuota.BorrowingLimit = some bl →
      cq.Usage fName rName + val > rQuota.Nominal + bl →
      fitsResourceQuota fName rName val cq rQuota =
        (candidateMode val rQuota.Nominal, 0,
          some { reasons := ["borrowing limit for " ++ rName ++ " in flavor " ++ fName ++ " exceeded"] }) ∧
        candidateMode val rQuota.Nominal ≠ .Fit) ∧
    ((∀ bl, rQuota.BorrowingLimit = some bl → cq.Usage fName rName + val ≤ rQuota.Nominal + bl) →
      cohortUsedVal cq fName rName + val ≤ cohortAvailableVal cq fName rName rQuota.Nominal →
      fitsResourceQuota fName rName val cq rQuota =
        (.Fit, max 0 (cq.Usage fName rName + val - rQuota.Nominal), none)) ∧
    ((∀ bl, rQuota.BorrowingLimit = some bl → cq.Usage fName rName + val ≤ rQuota.Nominal + bl) →
      cohortUsedVal cq fName rName + val > cohortAvailableVal cq fName rName rQuota.Nominal →
      ∃ msg, fitsResourceQuota fName rName val cq rQuota =
        (candidateMode val rQuota.Nominal, 0, some { reasons := [msg] })) := by
  have hcohort : cohortUsedVal cq fName rName + val ≤
      cohortAvailableVal cq fName rName rQuota.Nominal →
      fitsCohort fName rName val cq rQuota =
        (.Fit, max 0 (cq.Usage fName rName + val - rQuota.Nominal), none) := by
    intro hle
    simp only [fitsCohort]
    have hcond : cohortUsedVal cq fName rName + val -
        cohortAvailableVal cq fName rName rQuota.Nominal ≤ 0 := by linarith
    rw [if_pos hcond]
    rcases lt_or_ge (cq.Usage fName rName + val - rQuota.Nominal) 0 with h2 | h2
    · rw [if_pos h2, max_eq_left (le_of_lt h2)]
    · rw [if_neg (not_lt.mpr h2), max_eq_right h2]
  have hlack : cohortUsedVal cq fName rName + val >
      cohortAvailableVal cq fName rName rQuota.Nominal →
      ∃ msg, fitsCohort fName rName val cq rQuota =
        (candidateMode val rQuota.Nominal, 0, some { reasons := [msg] }) := by
    intro hgt
    simp only [fitsCohort]
    have hcond : ¬ (cohortUsedVal cq fName rName + val -
        cohortAvailableVal cq fName rName rQuota.Nominal ≤ 0) := by linarith
    rw [if_neg hcond]
    exact ⟨_, rfl⟩
  refine ⟨?_, ?_, ?_⟩
  · intro bl hbl hgt
    constructor
    · simp only [fitsResourceQuota, hbl]
      rw [if_pos hgt]
    · unfold candidateMode
      split_ifs <;> simp
  · intro hbl hle
    rcases hb : rQuota.BorrowingLimit with _ | bl
    · simp only [fitsResourceQuota, hb]
      exact hcohort hle
    · have hng := hbl bl hb
      simp only [fitsResourceQuota, hb]
      rw [if_neg (by linarith)]
      exact hcohort hle
  · intro hbl hgt
    rcases hb : rQuota.BorrowingLimit with _ | bl
    · simp only [fitsResourceQuota, hb]
      exact hlack hgt
    · have hng := hbl bl hb
      simp only [fitsResourceQuota, hb]
      rw [if_neg (by linarith)]
      exact hlack hgt

/-- Witness for C2 at concrete inputs: flavor `one`, cpu, Nominal 2000,
borrowing limit 8000, usage 9000, requesting 2000 (the "past max, but can
preempt" test): the borrowing-limit branch fires with mode `Preempt`. -/
theorem fitsResourceQuota_spec_witness :
    fitsResourceQuota "one" "cpu" 2000
      { ResourceGroups := [], Usage := fun _ _ => 9000, Cohort := none }
      { Nominal := 2000, BorrowingLimit := some 8000 } =
      (.Preempt, 0, some { reasons := ["borrowing limit for cpu in flavor one exceeded"] }) ∧
    fitsResourceQuota "one" "cpu" 1000
      { ResourceGroups := [], Usage := fun _ _ => 0, Cohort := none }
      { Nominal := 2000, BorrowingLimit := none } = (.Fit, 0, none) := by
  constructor
  · have h := (fitsResourceQuota_spec "one" "cpu" 2000
      { ResourceGroups := [], Usage := fun _ _ => 9000, Cohort := none }
      { Nominal := 2000, BorrowingLimit := some 8000 }).1 8000 rfl (by norm_num)
    rw [h.1]
    simp [candidateMode]
  · have h := (fitsResourceQuota_spec "one" "cpu" 1000
      { ResourceGroups := [], Usage := fun _ _ => 0, Cohort := none }
      { Nominal := 2000, BorrowingLimit := none }).2.1
      (by intro bl hbl; simp at hbl)
      (by simp only [cohortUsedVal, cohortAvailableVal]; norm_num)
    rw [h]
    norm_num

/-! ## C6: selector filtering -/

theorem filterTerms_none_of_empty (allowedKeys : List String) (terms : List NodeSelectorTerm)
    (h : ∃ t ∈ terms, t.matchExpressions.filter (fun e => allowedKeys.contains e.key) = []) :
    filterTerms allowedKeys terms = none := by
  induction terms with
  | nil => rcases h with ⟨t, ht, _⟩; simp at ht
  | cons t0 rest ih =>
    rcases h with ⟨t, ht, hemp⟩
    rw [List.mem_cons] at ht
    simp only [filterTerms]
    rcases ht with ht | ht
    · subst ht
      rw [if_pos (by rw [hemp]; rfl)]
    · by_cases h0 : (t0.matchExpressions.filter (fun e => allowedKeys.contains e.key)).isEmpty
      · rw [if_pos h0]
      · rw [if_neg h0, ih ⟨t, ht, hemp⟩]

theorem filterTerms_some_keys (allowedKeys : List String) (terms ts : List NodeSelectorTerm)
    (h : filterTerms allowedKeys terms = some ts) :
    ∀ t ∈ ts, ∀ e ∈ t.matchExpressions, allowedKeys.contains e.key = true := by
  induction terms generalizing ts with
  | nil =>
    simp only [filterTerms] at h
    cases h
    simp
  | cons t0 rest ih =>
    simp only [filterTerms] at h
    by_cases h0 : (t0.matchExpressions.filter (fun e => allowedKeys.contains e.key)).isEmpty
    · rw [if_pos h0] at h; cases h
    · rw [if_neg h0] at h
      rcases hr : filterTerms allowedKeys rest with _ | ts2
      · rw [hr] at h; cases h
      · rw [hr] at h
        cases h
        intro t ht e he
        rw [List.mem_cons] at ht
        rcases ht with ht | ht
        · rw [ht] at he
          simp only [List.mem_filter] at he
          exact he.2
        · exact ih ts2 hr t ht e he

theorem filterTerms_all_nonempty (allowedKeys : List String) (terms : List NodeSelectorTerm)
    (h : ∀ t ∈ terms, t.matchExpressions.filter (fun e => allowedKeys.contains e.key) ≠ []) :
    filterTerms allowedKeys terms = some (terms.map (fun t =>
      { matchExpressions := t.matchExpressions.filter (fun e => allowedKeys.contains e.key) })) := by
  induction terms with
  | nil => rfl
  | cons t0 rest ih =>
    simp only [filterTerms]
    rw [if_neg (fun hc => h t0 (List.mem_cons_self t0 rest) (List.isEmpty_iff.mp hc))]
    rw [ih (fun t ht => h t (List.mem_cons_of_mem t0 ht))]
    simp

/-- C6: `flavorSelector` keeps only the node-selector entries whose keys
appear on the group's flavors and only the required-affinity match
expressions with such keys; and when any required term loses all its
expressions (all keys orthogonal to the group) the entire required node
affinity is dropped, so the selector matches any labels that satisfy the
filtered node selector (OR semantics across terms). -/
theorem flavorSelector_spec (spec : PodSpec) (allowedKeys : List String) :
    ((flavorSelector spec allowedKeys).nodeSelector =
      spec.nodeSelector.filter (fun kv => allowedKeys.contains kv.1)) ∧
    (∀ ts, (flavorSelector spec allowedKeys).affinityTerms = some ts →
      ∀ t ∈ ts, ∀ e ∈ t.matchExpressions, allowedKeys.contains e.key = true) ∧
    (∀ terms, spec.affinityTerms = some terms → terms ≠ [] →
      (∀ t ∈ terms, t.matchExpressions.filter (fun e => allowedKeys.contains e.key) ≠ []) →
      (flavorSelector spec allowedKeys).affinityTerms = some (terms.map (fun t =>
        { matchExpressions := t.matchExpressions.filter (fun e => allowedKeys.contains e.key) }))) ∧
    (∀ terms, spec.affinityTerms = some terms →
      (∃ t ∈ terms, t.matchExpressions.filter (fun e => allowedKeys.contains e.key) = []) →
      (flavorSelector spec allowedKeys).affinityTerms = none ∧
      ∀ labels, (flavorSelector spec allowedKeys).Match labels =
        (spec.nodeSelector.filter (fun kv => allowedKeys.contains kv.1)).all
          (fun kv => alookup labels kv.1 = some kv.2)) := by
  refine ⟨rfl, ?_, ?_, ?_⟩
  · intro ts hts
    rcases hsp : spec.affinityTerms with _ | terms
    · simp only [flavorSelector, hsp] at hts; cases hts
    · rcases hf : filterTerms allowedKeys terms with _ | ts2
      · simp only [flavorSelector, hsp, hf] at hts; cases hts
      · rcases ts2 with _ | ⟨t0, ts3⟩
        · simp only [flavorSelector, hsp, hf] at hts; cases hts
        · simp only [flavorSelector, hsp, hf] at hts
          cases hts
          exact filterTerms_some_keys allowedKeys terms _ hf
  · intro terms hsp hne hall
    rcases terms with _ | ⟨t0, rest⟩
    · exact absurd rfl hne
    · simp only [flavorSelector, hsp]
      rw [filterTerms_all_nonempty allowedKeys (t0 :: rest) hall]
      simp [List.map_cons]
  · intro terms hsp hemp
    have hnone : (flavorSelector spec allowedKeys).affinityTerms = none := by
      simp only [flavorSelector, hsp]
      rw [filterTerms_none_of_empty allowedKeys terms hemp]
    refine ⟨hnone, ?_⟩
    intro labels
    simp only [RequiredNodeAffinity.Match, hnone]
    rw [Bool.and_true]
    rfl

/-- Witness for C6: a pod whose required affinity has a term with only
orthogonal keys (`ignored2`) keeps no affinity constraint and matches any
flavor labels through the (filtered) node selector alone. -/
theorem flavorSelector_spec_witness :
    (flavorSelector
      { nodeSelector := [("type", "two"), ("ignored1", "foo")],
        affinityTerms := some [
          { matchExpressions := [{ key := "ignored2", operator := "In", values := ["bar"] }] }],
        tolerations := [] } ["type"]).affinityTerms = none ∧
    (flavorSelector
      { nodeSelector := [("type", "two"), ("ignored1", "foo")],
        affinityTerms := some [
          { matchExpressions := [{ key := "ignored2", operator := "In", values := ["bar"] }] }],
        tolerations := [] } ["type"]).Match [("type", "two")] = true := by
  have h := (flavorSelector_spec
    { nodeSelector := [("type", "two"), ("ignored1", "foo")],
      affinityTerms := some [
        { matchExpressions := [{ key := "ignored2", operator := "In", values := ["bar"] }] }],
      tolerations := [] } ["type"]).2.2.2
    [{ matchExpressions := [{ key := "ignored2", operator := "In", values := ["bar"] }] }]
    rfl
    ⟨{ matchExpressions := [{ key := "ignored2", operator := "In", values := ["bar"] }] },
      by simp, by decide⟩
  refine ⟨h.1, ?_⟩
  rw [h.2 [("type", "two")]]
  decide

/-! ## C5: flavor gate checks -/

/-- C5: a flavor absent from the catalogue is skipped with "flavor … not
found"; a flavor with a NoSchedule/NoExecute taint no pod toleration
tolerates is skipped with "untolerated taint …"; a flavor whose labels
the filtered selector rejects is skipped with "… doesn't match node
affinity"; and in the flavor loop a skipped flavor only appends its
reason and moves on to the next declared flavor. -/
theorem flavor_gates_spec (resourceFlavors : String → Option (List (String × String) × List Taint))
    (cq : ClusterQueue) (usage : String → String → Qty) (spec : PodSpec)
    (selector : RequiredNodeAffinity) (requests : Requests) (flvQuotas : FlavorQuotas) :
    (resourceFlavors flvQuotas.Name = none →
      tryFlavor resourceFlavors cq usage spec selector requests flvQuotas =
        .skipped ("flavor " ++ flvQuotas.Name ++ " not found")) ∧
    (∀ labels taints, resourceFlavors flvQuotas.Name = some (labels, taints) →
      (∃ t ∈ taints, scheduleBlocking t = true ∧
        ∀ tol ∈ spec.tolerations, tol.toleratesTaint t = false) →
      ∃ t, scheduleBlocking t = true ∧
        (∀ tol ∈ spec.tolerations, tol.toleratesTaint t = false) ∧
        tryFlavor resourceFlavors cq usage spec selector requests flvQuotas =
          .skipped ("untolerated taint " ++ taintStr t ++ " in flavor " ++ flvQuotas.Name)) ∧
    (∀ labels taints, resourceFlavors flvQuotas.Name = some (labels, taints) →
      FindMatchingUntoleratedTaint taints spec.tolerations = none →
      selector.Match labels = false →
      tryFlavor resourceFlavors cq usage spec selector requests flvQuotas =
        .skipped ("flavor " ++ flvQuotas.Name ++ " doesn\x27t match node affinity")) ∧
    (∀ reason rest best bestMode reasons,
      tryFlavor resourceFlavors cq usage spec selector requests flvQuotas = .skipped reason →
      findFlavorLoop resourceFlavors cq usage spec selector requests (flvQuotas :: rest)
          best bestMode reasons =
        findFlavorLoop resourceFlavors cq usage spec selector requests rest
          best bestMode (reasons ++ [reason])) := by
  refine ⟨?_, ?_, ?_, ?_⟩
  · intro hnone
    simp only [tryFlavor, hnone]
  · intro labels taints hsome hex
    have hfind : (FindMatchingUntoleratedTaint taints spec.tolerations).isSome := by
      unfold FindMatchingUntoleratedTaint
      rw [List.find?_isSome]
      rcases hex with ⟨t, ht, hb, hunt⟩
      refine ⟨t, List.mem_filter.mpr ⟨ht, hb⟩, ?_⟩
      simp only [decide_eq_true_eq]
      intro hany
      rw [List.any_eq_true] at hany
      rcases hany with ⟨tol, htol, htt⟩
      rw [hunt tol htol] at htt
      cases htt
    rcases Option.isSome_iff_exists.mp hfind with ⟨t, ht⟩
    have htmem := List.mem_of_find?_eq_some ht
    have htp := List.find?_some ht
    rw [List.mem_filter] at htmem
    refine ⟨t, htmem.2, ?_, ?_⟩
    · intro tol htol
      simp only [decide_eq_true_eq] at htp
      by_cases hc : tol.toleratesTaint t = true
      · exact absurd (List.any_eq_true.mpr ⟨tol, htol, hc⟩) (by exact_mod_cast htp)
      · simpa using hc
    · simp only [tryFlavor, hsome, ht]
  · intro labels taints hsome hfind hmatch
    simp only [tryFlavor, hsome, hfind]
    rw [if_pos (by simp [hmatch])]
  · intro reason rest best bestMode reasons hskip
    simp only [findFlavorLoop, hskip]

/-- Witness for C5: an unknown flavor and a flavor rejected by node
affinity are skipped with the corresponding reasons, and the loop
continues with the next flavor. -/
theorem flavor_gates_spec_witness :
    tryFlavor (fun _ => none)
      { ResourceGroups := [], Usage := fun _ _ => 0, Cohort := none }
      (fun _ _ => 0)
      { nodeSelector := [], affinityTerms := none, tolerations := [] }
      { nodeSelector := [], affinityTerms := none }
      [] { Name := "missing", Resources := [] } =
      .skipped "flavor missing not found" ∧
    tryFlavor (fun n => if n = "one" then some ([("type", "one")], []) else none)
      { ResourceGroups := [], Usage := fun _ _ => 0, Cohort := none }
      (fun _ _ => 0)
      { nodeSelector := [("type", "two")], affinityTerms := none, tolerations := [] }
      { nodeSelector := [("type", "two")], affinityTerms := none }
      [] { Name := "one", Resources := [] } =
      .skipped "flavor one doesn\x27t match node affinity" := by
  constructor
  · exact (flavor_gates_spec (fun _ => none)
      { ResourceGroups := [], Usage := fun _ _ => 0, Cohort := none }
      (fun _ _ => 0)
      { nodeSelector := [], affinityTerms := none, tolerations := [] }
      { nodeSelector := [], affinityTerms := none }
      [] { Name := "missing", Resources := [] }).1 rfl
  · exact (flavor_gates_spec (fun n => if n = "one" then some ([("type", "one")], []) else none)
      { ResourceGroups := [], Usage := fun _ _ => 0, Cohort := none }
      (fun _ _ => 0)
      { nodeSelector := [("type", "two")], affinityTerms := none, tolerations := [] }
      { nodeSelector := [("type", "two")], affinityTerms := none }
      [] { Name := "one", Resources := [] }).2.2.1
      [("type", "one")] [] (by decide) (by decide) (by decide)

/-! ## C4: the flavor loop keeps the best flavor -/

section FindFlavorLoop

variable (resourceFlavors : String → Option (List (String × String) × List Taint))
  (cq : ClusterQueue) (usage : String → String → Qty) (spec : PodSpec)
  (selector : RequiredNodeAffinity) (requests : Requests)

theorem findFlavorLoop_fit (fqs : List FlavorQuotas) (best : ResourceAssignment)
    (bestMode : FlavorAssignmentMode) (reasons : List String) (hbm : bestMode ≠ .Fit)
    (fq : FlavorQuotas)
    (hfq : fqs.find? (isFitFlavor resourceFlavors cq usage spec selector requests) = some fq) :
    findFlavorLoop resourceFlavors cq usage spec selector requests fqs best bestMode reasons =
      (evalAssignments resourceFlavors cq usage spec selector requests fq, none) := by
  induction fqs generalizing best bestMode reasons with
  | nil => cases hfq
  | cons fq0 rest ih =>
    rcases htf : tryFlavor resourceFlavors cq usage spec selector requests fq0 with r | ⟨as, m, rs⟩
    · have hnot : isFitFlavor resourceFlavors cq usage spec selector requests fq0 = false := by
        simp [isFitFlavor, htf]
      rw [List.find?_cons_of_neg _ (by simp [hnot])] at hfq
      simp only [findFlavorLoop, htf]
      exact ih best bestMode (reasons ++ [r]) hbm hfq
    · by_cases hm : m = .Fit
      · subst hm
        have hfit : isFitFlavor resourceFlavors cq usage spec selector requests fq0 = true := by
          simp [isFitFlavor, htf]
        rw [List.find?_cons_of_pos _ (by simp [hfit])] at hfq
        cases hfq
        simp only [findFlavorLoop, htf]
        rw [if_pos (by cases bestMode <;> simp_all [FlavorAssignmentMode.toNat])]
        simp [evalAssignments, htf]
      · have hnot : isFitFlavor resourceFlavors cq usage spec selector requests fq0 = false := by
          simp [isFitFlavor, htf, hm]
        rw [List.find?_cons_of_neg _ (by simp [hnot])] at hfq
        simp only [findFlavorLoop, htf]
        by_cases himp : bestMode.toNat < m.toNat
        · rw [if_pos himp, if_neg hm]
          exact ih as m (reasons ++ rs) hm hfq
        · rw [if_neg himp]
          exact ih best bestMode (reasons ++ rs) hbm hfq

theorem findFlavorLoop_stuck (fqs : List FlavorQuotas) (best : ResourceAssignment)
    (reasons : List String)
    (hnofit : ∀ fq ∈ fqs, isFitFlavor resourceFlavors cq usage spec selector requests fq = false) :
    findFlavorLoop resourceFlavors cq usage spec selector requests fqs best .Preempt reasons =
      (best, some { reasons := reasons ++
        (fqs.map (flavorReasons resourceFlavors cq usage spec selector requests)).flatten }) := by
  induction fqs generalizing best reasons with
  | nil => simp [findFlavorLoop]
  | cons fq0 rest ih =>
    have hrest : ∀ fq ∈ rest, isFitFlavor resourceFlavors cq usage spec selector requests fq
        = false := fun fq hfq => hnofit fq (List.mem_cons_of_mem fq0 hfq)
    rcases htf : tryFlavor resourceFlavors cq usage spec selector requests fq0 with r | ⟨as, m, rs⟩
    · simp only [findFlavorLoop, htf]
      rw [ih best (reasons ++ [r]) hrest]
      simp [flavorReasons, htf, List.append_assoc]
    · have hm : m ≠ .Fit := by
        intro he
        have := hnofit fq0 (List.mem_cons_self fq0 rest)
        rw [isFitFlavor, htf, he] at this
        simp at this
      simp only [findFlavorLoop, htf]
      rw [if_neg (by cases m <;> simp_all [FlavorAssignmentMode.toNat])]
      rw [ih best (reasons ++ rs) hrest]
      simp [flavorReasons, htf, List.append_assoc]

theorem findFlavorLoop_noFit_preempt (fqs : List FlavorQuotas) (best : ResourceAssignment)
    (reasons : List String)
    (hnofit : ∀ fq ∈ fqs, isFitFlavor resourceFlavors cq usage spec selector requests fq = false)
    (fq : FlavorQuotas)
    (hfq : fqs.find? (isPreemptFlavor resourceFlavors cq usage spec selector requests) = some fq) :
    findFlavorLoop resourceFlavors cq usage spec selector requests fqs best .NoFit reasons =
      (evalAssignments resourceFlavors cq usage spec selector requests fq, some { reasons :=
        reasons ++
          (fqs.map (flavorReasons resourceFlavors cq usage spec selector requests)).flatten }) := by
  induction fqs generalizing best reasons with
  | nil => cases hfq
  | cons fq0 rest ih =>
    have hrest : ∀ fq2 ∈ rest, isFitFlavor resourceFlavors cq usage spec selector requests fq2
        = false := fun fq2 h => hnofit fq2 (List.mem_cons_of_mem fq0 h)
    rcases htf : tryFlavor resourceFlavors cq usage spec selector requests fq0 with r | ⟨as, m, rs⟩
    · have hnp : isPreemptFlavor resourceFlavors cq usage spec selector requests fq0 = false := by
        simp [isPreemptFlavor, htf]
      rw [List.find?_cons_of_neg _ (by simp [hnp])] at hfq
      simp only [findFlavorLoop, htf]
      rw [ih best (reasons ++ [r]) hrest hfq]
      simp [flavorReasons, htf, List.append_assoc]
    · have hm : m ≠ .Fit := by
        intro he
        have := hnofit fq0 (List.mem_cons_self fq0 rest)
        rw [isFitFlavor, htf, he] at this
        simp at this
      by_cases hmp : m = .Preempt
      · subst hmp
        have hp : isPreemptFlavor resourceFlavors cq usage spec selector requests fq0 = true := by
          simp [isPreemptFlavor, htf]
        rw [List.find?_cons_of_pos _ (by simp [hp])] at hfq
        cases hfq
        simp only [findFlavorLoop, htf]
        rw [if_pos (by simp [FlavorAssignmentMode.toNat])]
        rw [if_neg (by simp)]
        rw [findFlavorLoop_stuck resourceFlavors cq usage spec selector requests rest as
          (reasons ++ rs) hrest]
        simp [evalAssignments, flavorReasons, htf, List.append_assoc]
      · have hmn : m = .NoFit := by cases m <;> simp_all
        subst hmn
        have hnp : isPreemptFlavor resourceFlavors cq usage spec selector requests fq0
            = false := by
          simp [isPreemptFlavor, htf]
        rw [List.find?_cons_of_neg _ (by simp [hnp])] at hfq
        simp only [findFlavorLoop, htf]
        rw [if_neg (by simp [FlavorAssignmentMode.toNat])]
        rw [ih best (reasons ++ rs) hrest hfq]
        simp [flavorReasons, htf, List.append_assoc]

theorem findFlavorLoop_allNoFit (fqs : List FlavorQuotas) (best : ResourceAssignment)
    (reasons : List String)
    (hnofit : ∀ fq ∈ fqs, isFitFlavor resourceFlavors cq usage spec selector requests fq = false)
    (hnop : ∀ fq ∈ fqs,
      isPreemptFlavor resourceFlavors cq usage spec selector requests fq = false) :
    findFlavorLoop resourceFlavors cq usage spec selector requests fqs best .NoFit reasons =
      (best, some { reasons := reasons ++
        (fqs.map (flavorReasons resourceFlavors cq usage spec selector requests)).flatten }) := by
  induction fqs generalizing best reasons with
  | nil => simp [findFlavorLoop]
  | cons fq0 rest ih =>
    have hrestf : ∀ fq ∈ rest, isFitFlavor resourceFlavors cq usage spec selector requests fq
        = false := fun fq h => hnofit fq (List.mem_cons_of_mem fq0 h)
    have hrestp : ∀ fq ∈ rest, isPreemptFlavor resourceFlavors cq usage spec selector requests fq
        = false := fun fq h => hnop fq (List.mem_cons_of_mem fq0 h)
    rcases htf : tryFlavor resourceFlavors cq usage spec selector requests fq0 with r | ⟨as, m, rs⟩
    · simp only [findFlavorLoop, htf]
      rw [ih best (reasons ++ [r]) hrestf hrestp]
      simp [flavorReasons, htf, List.append_assoc]
    · have hmn : m = .NoFit := by
        have h1 := hnofit fq0 (List.mem_cons_self fq0 rest)
        have h2 := hnop fq0 (List.mem_cons_self fq0 rest)
        rw [isFitFlavor, htf] at h1
        rw [isPreemptFlavor, htf] at h2
        cases m <;> simp_all
      subst hmn
      simp only [findFlavorLoop, htf]
      rw [if_neg (by simp [FlavorAssignmentMode.toNat])]
      rw [ih best (reasons ++ rs) hrestf hrestp]
      simp [flavorReasons, htf, List.append_assoc]

end FindFlavorLoop

/-- C4: `findFlavorForResourceGroup` walks the group's flavors in declared
order over the requests filtered to the group and the selector filtered to
the group's label keys: it returns the first flavor evaluating to `Fit`
with a nil status; with no `Fit` flavor it keeps the first `Preempt`
flavor (strict improvement only, so the earlier-declared flavor wins a
tie) together with every accumulated reason; and when every flavor is
skipped or `NoFit` it returns no assignment and all accumulated reasons. -/
theorem findFlavorForResourceGroup_spec
    (resourceFlavors : String → Option (List (String × String) × List Taint))
    (cq : ClusterQueue) (usage : String → String → Qty) (rg : ResourceGroup)
    (requests : Requests) (spec : PodSpec) :
    (∀ fq, rg.Flavors.find? (isFitFlavor resourceFlavors cq usage spec
        (flavorSelector spec rg.LabelKeys)
        (filterRequestedResources requests rg.CoveredResources)) = some fq →
      findFlavorForResourceGroup resourceFlavors cq usage rg requests spec =
        (evalAssignments resourceFlavors cq usage spec (flavorSelector spec rg.LabelKeys)
          (filterRequestedResources requests rg.CoveredResources) fq, none)) ∧
    (rg.Flavors.find? (isFitFlavor resourceFlavors cq usage spec
        (flavorSelector spec rg.LabelKeys)
        (filterRequestedResources requests rg.CoveredResources)) = none →
      ∀ fq, rg.Flavors.find? (isPreemptFlavor resourceFlavors cq usage spec
          (flavorSelector spec rg.LabelKeys)
          (filterRequestedResources requests rg.CoveredResources)) = some fq →
        findFlavorForResourceGroup resourceFlavors cq usage rg requests spec =
          (evalAssignments resourceFlavors cq usage spec (flavorSelector spec rg.LabelKeys)
            (filterRequestedResources requests rg.CoveredResources) fq,
            some { reasons := (rg.Flavors.map (flavorReasons resourceFlavors cq usage spec
              (flavorSelector spec rg.LabelKeys)
              (filterRequestedResources requests rg.CoveredResources))).flatten })) ∧
    (rg.Flavors.find? (isFitFlavor resourceFlavors cq usage spec
        (flavorSelector spec rg.LabelKeys)
        (filterRequestedResources requests rg.CoveredResources)) = none →
      rg.Flavors.find? (isPreemptFlavor resourceFlavors cq usage spec
        (flavorSelector spec rg.LabelKeys)
        (filterRequestedResources requests rg.CoveredResources)) = none →
      findFlavorForResourceGroup resourceFlavors cq usage rg requests spec =
        ([], some { reasons := (rg.Flavors.map (flavorReasons resourceFlavors cq usage spec
          (flavorSelector spec rg.LabelKeys)
          (filterRequestedResources requests rg.CoveredResources))).flatten })) := by
  refine ⟨?_, ?_, ?_⟩
  · intro fq hfq
    unfold findFlavorForResourceGroup
    rw [findFlavorLoop_fit resourceFlavors cq usage spec (flavorSelector spec rg.LabelKeys)
      (filterRequestedResources requests rg.CoveredResources) rg.Flavors [] .NoFit []
      (by simp) fq hfq]
  · intro hnofit fq hfq
    unfold findFlavorForResourceGroup
    rw [findFlavorLoop_noFit_preempt resourceFlavors cq usage spec
      (flavorSelector spec rg.LabelKeys)
      (filterRequestedResources requests rg.CoveredResources) rg.Flavors [] []
      (by
        intro fq2 h2
        have := List.find?_eq_none.mp hnofit fq2 h2
        simpa using this) fq hfq]
    simp
  · intro hnofit hnop
    unfold findFlavorForResourceGroup
    rw [findFlavorLoop_allNoFit resourceFlavors cq usage spec
      (flavorSelector spec rg.LabelKeys)
      (filterRequestedResources requests rg.CoveredResources) rg.Flavors [] []
      (by
        intro fq2 h2
        have := List.find?_eq_none.mp hnofit fq2 h2
        simpa using this)
      (by
        intro fq2 h2
        have := List.find?_eq_none.mp hnop fq2 h2
        simpa using this)]
    simp

/-- Witness for C4: with flavors `[tainted, two]` and an untolerated
taint on the first, the loop returns immediately on `two`, the first
flavor whose mode is `Fit`, with a nil status. -/
theorem findFlavorForResourceGroup_spec_witness :
    findFlavorForResourceGroup
      (fun n => if n = "two" then some ([("type", "two")], [])
        else if n = "tainted" then
          some ([], [{ key := "instance", value := "spot", effect := "NoSchedule" }])
        else none)
      { ResourceGroups := [], Usage := fun _ _ => 0, Cohort := none }
      (fun _ _ => 0)
      { CoveredResources := ["cpu"],
        Flavors := [{ Name := "tainted", Resources := [("cpu", ⟨4000, none⟩)] },
                    { Name := "two", Resources := [("cpu", ⟨4000, none⟩)] }],
        LabelKeys := ["type"] }
      [("cpu", 3000)]
      { nodeSelector := [], affinityTerms := none, tolerations := [] } =
      ([("cpu", { Name := "two", Mode := .Fit, borrow := 0 })], none) := by
  have h := (findFlavorForResourceGroup_spec
      (fun n => if n = "two" then some ([("type", "two")], [])
        else if n = "tainted" then
          some ([], [{ key := "instance", value := "spot", effect := "NoSchedule" }])
        else none)
      { ResourceGroups := [], Usage := fun _ _ => 0, Cohort := none }
      (fun _ _ => 0)
      { CoveredResources := ["cpu"],
        Flavors := [{ Name := "tainted", Resources := [("cpu", ⟨4000, none⟩)] },
                    { Name := "two", Resources := [("cpu", ⟨4000, none⟩)] }],
        LabelKeys := ["type"] }
      [("cpu", 3000)]
      { nodeSelector := [], affinityTerms := none, tolerations := [] }).1
      { Name := "two", Resources := [("cpu", ⟨4000, none⟩)] } (by decide)
  rw [h]
  decide

/-! ## C9: admission / Admitted-condition equivalence -/

theorem findStatusCondition_setStatusCondition (conds : List Condition) (c : Condition) :
    ∃ c2, FindStatusCondition (SetStatusCondition conds c) c.ctype = some c2 ∧
      c2.status = c.status := by
  induction conds with
  | nil =>
    refine ⟨c, ?_, rfl⟩
    simp [SetStatusCondition, FindStatusCondition, List.find?]
  | cons e rest ih =>
    by_cases he : e.ctype = c.ctype
    · refine ⟨{ e with
          status := c.status
          reason := c.reason
          message := c.message
          lastTransitionTime :=
            if e.status ≠ c.status then c.lastTransitionTime
            else e.lastTransitionTime }, ?_, rfl⟩
      simp only [SetStatusCondition, if_pos he, FindStatusCondition]
      rw [List.find?_cons_of_pos _ (by simp [he])]
    · rcases ih with ⟨c2, hc2, hs⟩
      refine ⟨c2, ?_, hs⟩
      simp only [SetStatusCondition, if_neg he, FindStatusCondition]
      rw [List.find?_cons_of_neg _ (by simp [he])]
      exact hc2

theorem findStatusCondition_resetEvicted (conds : List Condition) (now : Int) (t : String)
    (ht : t ≠ WorkloadEvicted) :
    FindStatusCondition (resetEvictedCondition conds now) t =
      FindStatusCondition conds t := by
  induction conds with
  | nil => rfl
  | cons e rest ih =>
    by_cases he : e.ctype = WorkloadEvicted
    · have hne : ¬ e.ctype = t := by rw [he]; exact fun h => ht h.symm
      simp only [resetEvictedCondition, if_pos he, FindStatusCondition, List.find?]
      simp [hne]
    · simp only [resetEvictedCondition, if_neg he, FindStatusCondition, List.find?]
      by_cases het : e.ctype = t
      · simp [het]
      · simp only [FindStatusCondition] at ih
        simp [het, ih]

/-- C9: `SetAdmission` stores the admission and makes the `Admitted`
condition True, `UnsetAdmissionWithCondition` clears the admission and
makes it False, so `IsAdmitted` is true exactly after `SetAdmission` and
false after `UnsetAdmissionWithCondition`, preserving the equivalence
"non-nil `Status.Admission` ⇔ `Admitted` condition True" between them. -/
theorem admission_admitted_equivalence (w : Workload) (admission : Admission) (now : Int)
    (reason message : String) :
    (SetAdmission w admission now).admission = some admission ∧
    IsAdmitted (SetAdmission w admission now) = true ∧
    ((SetAdmission w admission now).admission.isSome = IsAdmitted (SetAdmission w admission now)) ∧
    (UnsetAdmissionWithCondition w reason message now).admission = none ∧
    IsAdmitted (UnsetAdmissionWithCondition w reason message now) = false ∧
    ((UnsetAdmissionWithCondition w reason message now).admission.isSome =
      IsAdmitted (UnsetAdmissionWithCondition w reason message now)) := by
  have hset : IsAdmitted (SetAdmission w admission now) = true := by
    simp only [SetAdmission, IsAdmitted, IsStatusConditionTrue]
    rcases findStatusCondition_setStatusCondition w.conditions
      { ctype := WorkloadAdmitted, status := "True", reason := "Admitted",
        message := "Admitted by ClusterQueue " ++ admission.clusterQueue,
        lastTransitionTime := now } with ⟨c2, hc2, hs⟩
    by_cases hev : (FindStatusCondition
        (SetStatusCondition w.conditions
          { ctype := WorkloadAdmitted, status := "True", reason := "Admitted",
            message := "Admitted by ClusterQueue " ++ admission.clusterQueue,
            lastTransitionTime := now }) WorkloadEvicted).isSome
    · rw [if_pos hev]
      rw [findStatusCondition_resetEvicted _ _ _ (by decide)]
      rw [hc2]
      simp [hs]
    · rw [if_neg hev]
      rw [hc2]
      simp [hs]
  have hunset : IsAdmitted (UnsetAdmissionWithCondition w reason message now) = false := by
    simp only [UnsetAdmissionWithCondition, IsAdmitted, IsStatusConditionTrue]
    rcases findStatusCondition_setStatusCondition w.conditions
      { ctype := WorkloadAdmitted, status := "False", reason := reason,
        message := message, lastTransitionTime := now } with ⟨c2, hc2, hs⟩
    rw [hc2]
    simp [hs]
  refine ⟨rfl, hset, ?_, rfl, hunset, ?_⟩
  · rw [hset]; rfl
  · rw [hunset]; rfl

/-! ## C10: an empty workload is never admissible -/

/-- C10: an assignment with no pod sets (in particular the one
`AssignFlavors` computes for a workload with an empty pod-set list) has
representative mode `NoFit`, not the vacuous minimum `Fit`. -/
theorem representativeMode_empty_noFit :
    (∀ resourceFlavors cq,
      (AssignFlavors resourceFlavors cq []).RepresentativeMode = .NoFit) ∧
    (∀ a : Assignment, a.PodSets = [] → a.RepresentativeMode = .NoFit) := by
  constructor
  · intro resourceFlavors cq
    rfl
  · intro a ha
    simp [Assignment.RepresentativeMode, ha]

/-- Witness for C10 at a concrete ClusterQueue and flavor catalogue. -/
theorem representativeMode_empty_noFit_witness :
    (AssignFlavors (fun _ => none)
      { ResourceGroups := [], Usage := fun _ _ => 0, Cohort := none }
      []).RepresentativeMode = .NoFit ∧
    Assignment.RepresentativeMode
      { PodSets := [], TotalBorrow := [], usage := fun _ _ => 0 } = .NoFit := by
  exact ⟨representativeMode_empty_noFit.1 (fun _ => none)
      { ResourceGroups := [], Usage := fun _ _ => 0, Cohort := none },
    representativeMode_empty_noFit.2
      { PodSets := [], TotalBorrow := [], usage := fun _ _ => 0 } rfl⟩

/-! ## C7: queue ordering timestamp -/

/-- C7: the queue-ordering timestamp is the Evicted condition's transition
time exactly when the workload has an Evicted condition with status True
and reason PodsReadyTimeout; in every other case (no Evicted condition,
status False, or another reason such as Preempted) it is the creation
timestamp. -/
theorem getQueueOrderTimestamp_spec (w : Workload) :
    ((∃ c, FindStatusCondition w.conditions WorkloadEvicted = some c ∧
        c.status = "True" ∧ c.reason = WorkloadEvictedByPodsReadyTimeout) →
      ∃ c, FindStatusCondition w.conditions WorkloadEvicted = some c ∧
        GetQueueOrderTimestamp w = c.lastTransitionTime) ∧
    ((¬ ∃ c, FindStatusCondition w.conditions WorkloadEvicted = some c ∧
        c.status = "True" ∧ c.reason = WorkloadEvictedByPodsReadyTimeout) →
      GetQueueOrderTimestamp w = w.creationTimestamp) := by
  constructor
  · rintro ⟨c, hc, hs, hr⟩
    refine ⟨c, hc, ?_⟩
    simp only [GetQueueOrderTimestamp, hc]
    rw [if_pos ⟨hs, hr⟩]
  · intro h
    rcases hc : FindStatusCondition w.conditions WorkloadEvicted with _ | c
    · simp only [GetQueueOrderTimestamp, hc]
    · simp only [GetQueueOrderTimestamp, hc]
      rw [if_neg]
      intro hcon
      exact h ⟨c, hc, hcon⟩

/-- Witness for C7: a workload evicted by PodsReady timeout takes the
eviction time; the same condition with reason Preempted keeps the
creation time. -/
theorem getQueueOrderTimestamp_spec_witness :
    GetQueueOrderTimestamp
      { creationTimestamp := 10, admission := none,
        conditions := [{ ctype := "Evicted", status := "True", reason := "PodsReadyTimeout",
                         message := "", lastTransitionTime := 99 }] } = 99 ∧
    GetQueueOrderTimestamp
      { creationTimestamp := 10, admission := none,
        conditions := [{ ctype := "Evicted", status := "True", reason := "Preempted",
                         message := "", lastTransitionTime := 99 }] } = 10 := by
  constructor
  · have h := (getQueueOrderTimestamp_spec
      { creationTimestamp := 10, admission := none,
        conditions := [{ ctype := "Evicted", status := "True", reason := "PodsReadyTimeout",
                         message := "", lastTransitionTime := 99 }] }).1
      ⟨{ ctype := "Evicted", status := "True", reason := "PodsReadyTimeout",
         message := "", lastTransitionTime := 99 }, by decide, rfl, rfl⟩
    rcases h with ⟨c, hc, hts⟩
    have hceq : FindStatusCondition
        [{ ctype := "Evicted", status := "True", reason := "PodsReadyTimeout",
           message := "", lastTransitionTime := (99 : Int) }] WorkloadEvicted =
        some { ctype := "Evicted", status := "True", reason := "PodsReadyTimeout",
               message := "", lastTransitionTime := 99 } := by decide
    rw [hceq] at hc
    rw [hts, (Option.some_inj.mp hc).symm]
  · refine (getQueueOrderTimestamp_spec
      { creationTimestamp := 10, admission := none,
        conditions := [{ ctype := "Evicted", status := "True", reason := "Preempted",
                         message := "", lastTransitionTime := 99 }] }).2 ?_
    rintro ⟨c, hc, _hs, hr⟩
    have hceq : FindStatusCondition
        [{ ctype := "Evicted", status := "True", reason := "Preempted",
           message := "", lastTransitionTime := (99 : Int) }] WorkloadEvicted =
        some { ctype := "Evicted", status := "True", reason := "Preempted",
               message := "", lastTransitionTime := 99 } := by decide
    rw [hceq] at hc
    rw [(Option.some_inj.mp hc).symm] at hr
    simp [WorkloadEvictedByPodsReadyTimeout] at hr

/-! ## Membership structure of computed assignments -/

theorem mem_RAinsert {ra : ResourceAssignment} {k : String} {v : FlavorAssignment}
    {r : String} {fa : FlavorAssignment} (h : (r, fa) ∈ RAinsert ra k v) :
    (r, fa) ∈ ra ∨ ((r, fa) = (k, v)) := by
  unfold RAinsert at h
  by_cases hs : (alookup ra k).isSome
  · rw [if_pos hs] at h
    rw [List.mem_map] at h
    rcases h with ⟨p, hp, he⟩
    by_cases hpk : p.1 = k
    · rw [if_pos hpk] at he
      right; exact he.symm
    · rw [if_neg hpk] at he
      left; rw [← he]; exact hp
  · rw [if_neg hs] at h
    rw [List.mem_append] at h
    rcases h with h | h
    · left; exact h
    · right; simpa using h

theorem alookup_RAinsert_isSome {ra : ResourceAssignment} {k : String}
    {v : FlavorAssignment} {r : String} (h : (alookup ra r).isSome) :
    (alookup (RAinsert ra k v) r).isSome := by
  unfold RAinsert
  by_cases hs : (alookup ra k).isSome
  · rw [if_pos hs]
    unfold alookup at h ⊢
    rcases hf : ra.find? (fun p => p.1 = r) with _ | p
    · rw [hf] at h; simp at h
    · have hmem := List.mem_of_find?_eq_some hf
      have hp := List.find?_some hf
      simp only [decide_eq_true_eq] at hp
      by_cases hpk : p.1 = k
      · have : ((k, v) : String × FlavorAssignment) ∈ ra.map
            (fun p2 => if p2.1 = k then (k, v) else p2) := by
          rw [List.mem_map]
          exact ⟨p, hmem, by rw [if_pos hpk]⟩
        have h2 := alookup_isSome_of_mem this
        unfold alookup at h2
        rw [← hp, hpk]
        exact h2
      · have : p ∈ ra.map (fun p2 => if p2.1 = k then (k, v) else p2) := by
          rw [List.mem_map]
          exact ⟨p, hmem, by rw [if_neg hpk]⟩
        have h2 := alookup_isSome_of_mem (l := ra.map (fun p2 => if p2.1 = k then (k, v) else p2))
          (k := p.1) (v := p.2) (by simpa using this)
        unfold alookup at h2
        rw [← hp]
        exact h2
  · rw [if_neg hs]
    unfold alookup at h ⊢
    rcases hf : ra.find? (fun p => p.1 = r) with _ | p
    · rw [hf] at h; simp at h
    · rw [List.find?_append, hf]
      simp

theorem alookup_RAinsert_self {ra : ResourceAssignment} {k : String}
    {v : FlavorAssignment} : (alookup (RAinsert ra k v) k).isSome := by
  unfold RAinsert
  by_cases hs : (alookup ra k).isSome
  · rw [if_pos hs]
    unfold alookup at hs
    rcases hf : ra.find? (fun p => p.1 = k) with _ | p
    · rw [hf] at hs; simp at hs
    · have hmem := List.mem_of_find?_eq_some hf
      have hp := List.find?_some hf
      simp only [decide_eq_true_eq] at hp
      have : ((k, v) : String × FlavorAssignment) ∈ ra.map
          (fun p2 => if p2.1 = k then (k, v) else p2) := by
        rw [List.mem_map]
        exact ⟨p, hmem, by rw [if_pos hp]⟩
      exact alookup_isSome_of_mem this
  · rw [if_neg hs]
    exact alookup_isSome_of_mem (v := v) (List.mem_append_right ra (by simp))

/-- The merge fold used by `PodSetAssignment.append`. -/
theorem mem_mergeRA {flavors : ResourceAssignment} :
    ∀ (base : ResourceAssignment) (r : String) (fa : FlavorAssignment),
      (r, fa) ∈ flavors.foldl (fun ra p => RAinsert ra p.1 p.2) base →
      (r, fa) ∈ base ∨ (r, fa) ∈ flavors := by
  induction flavors with
  | nil => intro base r fa h; exact Or.inl h
  | cons p rest ih =>
    intro base r fa h
    rw [List.foldl_cons] at h
    rcases ih (RAinsert base p.1 p.2) r fa h with h2 | h2
    · rcases mem_RAinsert h2 with h3 | h3
      · exact Or.inl h3
      · right
        rw [List.mem_cons]
        left
        rw [h3]
    · right
      exact List.mem_cons_of_mem p h2

theorem alookup_mergeRA_isSome {flavors : ResourceAssignment} :
    ∀ (base : ResourceAssignment) (r : String),
      ((alookup base r).isSome ∨ ∃ fa, (r, fa) ∈ flavors) →
      (alookup (flavors.foldl (fun ra p => RAinsert ra p.1 p.2) base) r).isSome := by
  induction flavors with
  | nil =>
    intro base r h
    rcases h with h | ⟨fa, hfa⟩
    · exact h
    · simp at hfa
  | cons p rest ih =>
    intro base r h
    rw [List.foldl_cons]
    rcases h with h | ⟨fa, hfa⟩
    · exact ih (RAinsert base p.1 p.2) r (Or.inl (alookup_RAinsert_isSome h))
    · rw [List.mem_cons] at hfa
      rcases hfa with hfa | hfa
      · apply ih (RAinsert base p.1 p.2) r
        left
        have : r = p.1 := by
          have := congrArg Prod.fst hfa
          simpa using this
        rw [this]
        exact alookup_RAinsert_self
      · exact ih (RAinsert base p.1 p.2) r (Or.inr ⟨fa, hfa⟩)

theorem keysOf_RAinsert_nodup {ra : ResourceAssignment} {k : String}
    {v : FlavorAssignment} (h : (keysOf ra).Nodup) : (keysOf (RAinsert ra k v)).Nodup := by
  unfold RAinsert keysOf
  by_cases hs : (alookup ra k).isSome
  · rw [if_pos hs]
    have : (ra.map (fun p => if p.1 = k then (k, v) else p)).map (fun p => p.1) =
        ra.map (fun p => p.1) := by
      rw [List.map_map]
      apply List.map_congr_left
      intro p _
      by_cases hpk : p.1 = k
      · simp [hpk]
      · simp [hpk]
    rw [this]
    exact h
  · rw [if_neg hs]
    rw [List.map_append]
    rw [List.nodup_append]
    refine ⟨h, by simp, ?_⟩
    intro x hx
    simp only [List.map_cons, List.map_nil, List.mem_singleton]
    intro hxk
    rw [List.mem_map] at hx
    rcases hx with ⟨p, hp, hpx⟩
    apply hs
    rcases p with ⟨p1, p2⟩
    simp only at hpx
    rw [hxk] at hpx
    rw [hpx] at hp
    exact alookup_isSome_of_mem hp

theorem keysOf_mergeRA_nodup {flavors : ResourceAssignment} :
    ∀ (base : ResourceAssignment), (keysOf base).Nodup →
      (keysOf (flavors.foldl (fun ra p => RAinsert ra p.1 p.2) base)).Nodup := by
  induction flavors with
  | nil => intro base h; exact h
  | cons p rest ih =>
    intro base h
    rw [List.foldl_cons]
    exact ih (RAinsert base p.1 p.2) (keysOf_RAinsert_nodup h)

theorem modeMin_toNat_le_left (a b : FlavorAssignmentMode) :
    (modeMin a b).toNat ≤ a.toNat := by
  cases a <;> cases b <;> simp [modeMin, FlavorAssignmentMode.toNat]

theorem modeMin_toNat_le_right (a b : FlavorAssignmentMode) :
    (modeMin a b).toNat ≤ b.toNat := by
  cases a <;> cases b <;> simp [modeMin, FlavorAssignmentMode.toNat]

theorem flavorFitLoop_mode_le_rep (fName : String) (flvRes : List (String × ResourceQuota))
    (cq : ClusterQueue) (usage : String → String → Qty) :
    ∀ (reqs : Requests) (repMode : FlavorAssignmentMode),
      (flavorFitLoop fName flvRes cq usage repMode reqs).2.1.toNat ≤ repMode.toNat := by
  intro reqs
  induction reqs with
  | nil => intro repMode; exact le_refl _
  | cons p rest ih =>
    intro repMode
    rcases p with ⟨rName, val⟩
    simp only [flavorFitLoop]
    by_cases h2 : modeMin (fitsResourceQuota fName rName (val + usage fName rName) cq
        (quotaOf flvRes rName)).1 repMode = .NoFit
    · rw [if_pos h2]
      simp [FlavorAssignmentMode.toNat]
    · rw [if_neg h2]
      exact le_trans (ih _) (modeMin_toNat_le_right _ _)

theorem flavorFitLoop_mem (fName : String) (flvRes : List (String × ResourceQuota))
    (cq : ClusterQueue) (usage : String → String → Qty) :
    ∀ (reqs : Requests) (repMode : FlavorAssignmentMode) (r : String) (fa : FlavorAssignment),
      (r, fa) ∈ (flavorFitLoop fName flvRes cq usage repMode reqs).1 →
      fa.Name = fName ∧ ∃ v, (r, v) ∈ reqs ∧
        ∃ st, fitsResourceQuota fName r (v + usage fName r) cq (quotaOf flvRes r) =
          (fa.Mode, fa.borrow, st) := by
  intro reqs
  induction reqs with
  | nil => intro repMode r fa h; simp [flavorFitLoop] at h
  | cons p rest ih =>
    intro repMode r fa h
    rcases p with ⟨rName, val⟩
    simp only [flavorFitLoop] at h
    by_cases h2 : modeMin (fitsResourceQuota fName rName (val + usage fName rName) cq
        (quotaOf flvRes rName)).1 repMode = .NoFit
    · rw [if_pos h2] at h
      simp at h
    · rw [if_neg h2] at h
      simp only [List.mem_cons] at h
      rcases h with h | h
      · rw [Prod.mk.injEq] at h
        rcases h with ⟨hr, hfa⟩
        subst hr
        subst hfa
        exact ⟨rfl, val, by simp,
          (fitsResourceQuota fName r (val + usage fName r) cq (quotaOf flvRes r)).2.2, rfl⟩
      · rcases ih _ r fa h with ⟨hn, v, hv, hfit⟩
        exact ⟨hn, v, List.mem_cons_of_mem _ hv, hfit⟩

theorem flavorFitLoop_min (fName : String) (flvRes : List (String × ResourceQuota))
    (cq : ClusterQueue) (usage : String → String → Qty) :
    ∀ (reqs : Requests) (repMode : FlavorAssignmentMode) (r : String) (fa : FlavorAssignment),
      (r, fa) ∈ (flavorFitLoop fName flvRes cq usage repMode reqs).1 →
      (flavorFitLoop fName flvRes cq usage repMode reqs).2.1.toNat ≤ fa.Mode.toNat := by
  intro reqs
  induction reqs with
  | nil => intro repMode r fa h; simp [flavorFitLoop] at h
  | cons p rest ih =>
    intro repMode r fa h
    rcases p with ⟨rName, val⟩
    simp only [flavorFitLoop] at h ⊢
    by_cases h2 : modeMin (fitsResourceQuota fName rName (val + usage fName rName) cq
        (quotaOf flvRes rName)).1 repMode = .NoFit
    · rw [if_pos h2] at h
      simp at h
    · rw [if_neg h2] at h ⊢
      simp only [List.mem_cons] at h
      rcases h with h | h
      · rw [Prod.mk.injEq] at h
        rcases h with ⟨hr, hfa⟩
        subst hr
        subst hfa
        have hle := flavorFitLoop_mode_le_rep fName flvRes cq usage rest
          (modeMin (fitsResourceQuota fName r (val + usage fName r) cq
            (quotaOf flvRes r)).1 repMode)
        exact le_trans hle (modeMin_toNat_le_left _ _)
      · exact ih _ r fa h

theorem flavorFitLoop_cover (fName : String) (flvRes : List (String × ResourceQuota))
    (cq : ClusterQueue) (usage : String → String → Qty) :
    ∀ (reqs : Requests) (repMode : FlavorAssignmentMode),
      (flavorFitLoop fName flvRes cq usage repMode reqs).2.1 ≠ .NoFit →
      ∀ r v, (r, v) ∈ reqs →
        ∃ fa, (r, fa) ∈ (flavorFitLoop fName flvRes cq usage repMode reqs).1 := by
  intro reqs
  induction reqs with
  | nil => intro repMode _ r v h; simp at h
  | cons p rest ih =>
    intro repMode hmode r v h
    rcases p with ⟨rName, val⟩
    simp only [flavorFitLoop] at hmode ⊢
    by_cases h2 : modeMin (fitsResourceQuota fName rName (val + usage fName rName) cq
        (quotaOf flvRes rName)).1 repMode = .NoFit
    · rw [if_pos h2] at hmode
      simp at hmode
    · rw [if_neg h2] at hmode ⊢
      simp only [List.mem_cons] at h
      rcases h with h | h
      · rw [Prod.mk.injEq] at h
        rcases h with ⟨hr, _⟩
        subst hr
        refine ⟨{ Name := fName,
                  Mode := (fitsResourceQuota fName r (val + usage fName r) cq
                    (quotaOf flvRes r)).1,
                  borrow := (fitsResourceQuota fName r (val + usage fName r) cq
                    (quotaOf flvRes r)).2.1 }, ?_⟩
        exact List.mem_cons_self _ _
      · rcases ih _ hmode r v h with ⟨fa, hfa⟩
        exact ⟨fa, List.mem_cons_of_mem _ hfa⟩

section FindFlavorStructure

variable (resourceFlavors : String → Option (List (String × String) × List Taint))
  (cq : ClusterQueue) (usage : String → String → Qty) (spec : PodSpec)
  (selector : RequiredNodeAffinity) (requests : Requests)

theorem tryFlavor_evaluated (fq : FlavorQuotas) (as : ResourceAssignment)
    (m : FlavorAssignmentMode) (rs : List String)
    (h : tryFlavor resourceFlavors cq usage spec selector requests fq = .evaluated as m rs) :
    flavorFitLoop fq.Name fq.Resources cq usage .Fit requests = (as, m, rs) := by
  rcases hr : flavorFitLoop fq.Name fq.Resources cq usage .Fit requests with ⟨a, b, c⟩
  rcases hcat : resourceFlavors fq.Name with _ | flavor
  · simp only [tryFlavor, hcat] at h
    exact FlavorResult.noConfusion h
  · rcases htaint : FindMatchingUntoleratedTaint flavor.2 spec.tolerations with _ | t
    · by_cases hmatch : selector.Match flavor.1
      · simp only [tryFlavor, hcat, htaint] at h
        rw [if_neg (by simpa using hmatch)] at h
        rw [hr] at h
        cases h
        rfl
      · simp only [tryFlavor, hcat, htaint] at h
        rw [if_pos (by simpa using hmatch)] at h
        exact FlavorResult.noConfusion h
    · simp only [tryFlavor, hcat, htaint] at h
      exact FlavorResult.noConfusion h

theorem findFlavorLoop_mem (fqs : List FlavorQuotas) :
    ∀ (best : ResourceAssignment) (bestMode : FlavorAssignmentMode) (reasons : List String)
      (r : String) (fa : FlavorAssignment),
      (r, fa) ∈ (findFlavorLoop resourceFlavors cq usage spec selector requests
        fqs best bestMode reasons).1 →
      (r, fa) ∈ best ∨ ∃ fq, fq ∈ fqs ∧ ∃ as m rs,
        tryFlavor resourceFlavors cq usage spec selector requests fq = .evaluated as m rs ∧
        (r, fa) ∈ as := by
  induction fqs with
  | nil =>
    intro best bestMode reasons r fa h
    simp only [findFlavorLoop] at h
    exact Or.inl h
  | cons fq0 rest ih =>
    intro best bestMode reasons r fa h
    rcases htf : tryFlavor resourceFlavors cq usage spec selector requests fq0
      with rr | ⟨as, m, rs⟩
    · simp only [findFlavorLoop, htf] at h
      rcases ih best bestMode (reasons ++ [rr]) r fa h with h2 | ⟨fq, hfq, rest2⟩
      · exact Or.inl h2
      · exact Or.inr ⟨fq, List.mem_cons_of_mem _ hfq, rest2⟩
    · simp only [findFlavorLoop, htf] at h
      by_cases himp : bestMode.toNat < m.toNat
      · rw [if_pos himp] at h
        by_cases hfit : m = .Fit
        · rw [if_pos hfit] at h
          exact Or.inr ⟨fq0, List.mem_cons_self _ _, as, m, rs, htf, h⟩
        · rw [if_neg hfit] at h
          rcases ih as m (reasons ++ rs) r fa h with h2 | ⟨fq, hfq, rest2⟩
          · exact Or.inr ⟨fq0, List.mem_cons_self _ _, as, m, rs, htf, h2⟩
          · exact Or.inr ⟨fq, List.mem_cons_of_mem _ hfq, rest2⟩
      · rw [if_neg himp] at h
        rcases ih best bestMode (reasons ++ rs) r fa h with h2 | ⟨fq, hfq, rest2⟩
        · exact Or.inl h2
        · exact Or.inr ⟨fq, List.mem_cons_of_mem _ hfq, rest2⟩

theorem findFlavorLoop_none (fqs : List FlavorQuotas) :
    ∀ (best : ResourceAssignment) (bestMode : FlavorAssignmentMode) (reasons : List String)
      (as : ResourceAssignment),
      findFlavorLoop resourceFlavors cq usage spec selector requests
        fqs best bestMode reasons = (as, none) →
      ∃ fq, fq ∈ fqs ∧ ∃ rs,
        tryFlavor resourceFlavors cq usage spec selector requests fq =
          .evaluated as .Fit rs := by
  induction fqs with
  | nil =>
    intro best bestMode reasons as h
    simp only [findFlavorLoop, Prod.mk.injEq] at h
    exact Option.noConfusion h.2
  | cons fq0 rest ih =>
    intro best bestMode reasons as h
    rcases htf : tryFlavor resourceFlavors cq usage spec selector requests fq0
      with rr | ⟨as2, m, rs⟩
    · simp only [findFlavorLoop, htf] at h
      rcases ih best bestMode (reasons ++ [rr]) as h with ⟨fq, hfq, rest2⟩
      exact ⟨fq, List.mem_cons_of_mem _ hfq, rest2⟩
    · simp only [findFlavorLoop, htf] at h
      by_cases himp : bestMode.toNat < m.toNat
      · rw [if_pos himp] at h
        by_cases hfit : m = .Fit
        · rw [if_pos hfit] at h
          subst hfit
          rw [Prod.mk.injEq] at h
          refine ⟨fq0, List.mem_cons_self _ _, rs, ?_⟩
          rw [htf, h.1]
        · rw [if_neg hfit] at h
          rcases ih as2 m (reasons ++ rs) as h with ⟨fq, hfq, rest2⟩
          exact ⟨fq, List.mem_cons_of_mem _ hfq, rest2⟩
      · rw [if_neg himp] at h
        rcases ih best bestMode (reasons ++ rs) as h with ⟨fq, hfq, rest2⟩
        exact ⟨fq, List.mem_cons_of_mem _ hfq, rest2⟩

theorem findFlavorLoop_cover (fqs : List FlavorQuotas) :
    ∀ (best : ResourceAssignment) (bestMode : FlavorAssignmentMode) (reasons : List String),
      (best = [] ∨ ∀ r v, (r, v) ∈ requests → (alookup best r).isSome) →
      ((findFlavorLoop resourceFlavors cq usage spec selector requests
          fqs best bestMode reasons).1 = [] ∨
        ∀ r v, (r, v) ∈ requests →
          (alookup (findFlavorLoop resourceFlavors cq usage spec selector requests
            fqs best bestMode reasons).1 r).isSome) := by
  induction fqs with
  | nil =>
    intro best bestMode reasons hbest
    simp only [findFlavorLoop]
    exact hbest
  | cons fq0 rest ih =>
    intro best bestMode reasons hbest
    rcases htf : tryFlavor resourceFlavors cq usage spec selector requests fq0
      with rr | ⟨as, m, rs⟩
    · simp only [findFlavorLoop, htf]
      exact ih best bestMode (reasons ++ [rr]) hbest
    · simp only [findFlavorLoop, htf]
      by_cases himp : bestMode.toNat < m.toNat
      · have hmn : m ≠ .NoFit := by
          intro he
          rw [he] at himp
          simp [FlavorAssignmentMode.toNat] at himp
        have hcov : ∀ r v, (r, v) ∈ requests → (alookup as r).isSome := by
          intro r v hrv
          have hfl := tryFlavor_evaluated resourceFlavors cq usage spec selector requests
            fq0 as m rs htf
          have := flavorFitLoop_cover fq0.Name fq0.Resources cq usage requests .Fit
            (by rw [hfl]; simpa using hmn) r v hrv
          rcases this with ⟨fa, hfa⟩
          rw [hfl] at hfa
          exact alookup_isSome_of_mem hfa
        rw [if_pos himp]
        by_cases hfit : m = .Fit
        · rw [if_pos hfit]
          exact Or.inr hcov
        · rw [if_neg hfit]
          exact ih as m (reasons ++ rs) (Or.inr hcov)
      · rw [if_neg himp]
        exact ih best bestMode (reasons ++ rs) hbest

end FindFlavorStructure

section FindFlavorGroup

variable (resourceFlavors : String → Option (List (String × String) × List Taint))
  (cq : ClusterQueue) (usage : String → String → Qty) (spec : PodSpec)

theorem findFlavorForResourceGroup_mem (rg : ResourceGroup) (requests : Requests)
    (r : String) (fa : FlavorAssignment)
    (h : (r, fa) ∈ (findFlavorForResourceGroup resourceFlavors cq usage rg requests spec).1) :
    ∃ fq, fq ∈ rg.Flavors ∧ fq.Name = fa.Name ∧ r ∈ rg.CoveredResources ∧
      ∃ v, (r, v) ∈ requests ∧
        ∃ st, fitsResourceQuota fa.Name r (v + usage fa.Name r) cq (quotaOf fq.Resources r) =
          (fa.Mode, fa.borrow, st) := by
  unfold findFlavorForResourceGroup at h
  rcases findFlavorLoop_mem resourceFlavors cq usage spec (flavorSelector spec rg.LabelKeys)
      (filterRequestedResources requests rg.CoveredResources) rg.Flavors [] .NoFit [] r fa h
    with h2 | ⟨fq, hfq, as, m, rs, htf, hmem⟩
  · simp at h2
  · have hfl := tryFlavor_evaluated resourceFlavors cq usage spec
      (flavorSelector spec rg.LabelKeys)
      (filterRequestedResources requests rg.CoveredResources) fq as m rs htf
    have hm := flavorFitLoop_mem fq.Name fq.Resources cq usage
      (filterRequestedResources requests rg.CoveredResources) .Fit r fa (by rw [hfl]; exact hmem)
    rcases hm with ⟨hname, v, hv, st, hfit⟩
    unfold filterRequestedResources at hv
    rw [List.mem_filter] at hv
    refine ⟨fq, hfq, hname.symm, by simpa using hv.2, v, hv.1, st, ?_⟩
    rw [hname]
    exact hfit

theorem findFlavorForResourceGroup_none (rg : ResourceGroup) (requests : Requests)
    (as : ResourceAssignment)
    (h : findFlavorForResourceGroup resourceFlavors cq usage rg requests spec = (as, none)) :
    ∀ r fa, (r, fa) ∈ as → fa.Mode = .Fit := by
  intro r fa hmem
  unfold findFlavorForResourceGroup at h
  rcases findFlavorLoop_none resourceFlavors cq usage spec (flavorSelector spec rg.LabelKeys)
      (filterRequestedResources requests rg.CoveredResources) rg.Flavors [] .NoFit [] as h
    with ⟨fq, hfq, rs, htf⟩
  have hfl := tryFlavor_evaluated resourceFlavors cq usage spec
    (flavorSelector spec rg.LabelKeys)
    (filterRequestedResources requests rg.CoveredResources) fq as .Fit rs htf
  have hmin := flavorFitLoop_min fq.Name fq.Resources cq usage
    (filterRequestedResources requests rg.CoveredResources) .Fit r fa (by rw [hfl]; exact hmem)
  rw [hfl] at hmin
  simp only [FlavorAssignmentMode.toNat] at hmin
  cases hfa : fa.Mode
  · rw [hfa] at hmin; simp [FlavorAssignmentMode.toNat] at hmin
  · rw [hfa] at hmin; simp [FlavorAssignmentMode.toNat] at hmin
  · rfl

theorem findFlavorForResourceGroup_cover (rg : ResourceGroup) (requests : Requests) :
    (findFlavorForResourceGroup resourceFlavors cq usage rg requests spec).1 = [] ∨
      ∀ r v, (r, v) ∈ filterRequestedResources requests rg.CoveredResources →
        (alookup (findFlavorForResourceGroup resourceFlavors cq usage rg requests spec).1
          r).isSome := by
  unfold findFlavorForResourceGroup
  exact findFlavorLoop_cover resourceFlavors cq usage spec (flavorSelector spec rg.LabelKeys)
    (filterRequestedResources requests rg.CoveredResources) rg.Flavors [] .NoFit []
    (Or.inl rfl)

theorem findFlavorForResourceGroup_fail (rg : ResourceGroup) (requests : Requests)
    (r : String) (v : Qty) (hrv : (r, v) ∈ requests) (hcov : r ∈ rg.CoveredResources)
    (h : findFlavorForResourceGroup resourceFlavors cq usage rg requests spec = ([], none)) :
    False := by
  unfold findFlavorForResourceGroup at h
  rcases findFlavorLoop_none resourceFlavors cq usage spec (flavorSelector spec rg.LabelKeys)
      (filterRequestedResources requests rg.CoveredResources) rg.Flavors [] .NoFit [] [] h
    with ⟨fq, hfq, rs, htf⟩
  have hfl := tryFlavor_evaluated resourceFlavors cq usage spec
    (flavorSelector spec rg.LabelKeys)
    (filterRequestedResources requests rg.CoveredResources) fq [] .Fit rs htf
  have hmemf : (r, v) ∈ filterRequestedResources requests rg.CoveredResources := by
    unfold filterRequestedResources
    rw [List.mem_filter]
    exact ⟨hrv, by simpa using hcov⟩
  have := flavorFitLoop_cover fq.Name fq.Resources cq usage
    (filterRequestedResources requests rg.CoveredResources) .Fit
    (by rw [hfl]; simp) r v hmemf
  rcases this with ⟨fa, hfa⟩
  rw [hfl] at hfa
  simp at hfa

end FindFlavorGroup

/-! ## Invariants of the per-pod-set loop -/

theorem rgByResource_covers {cq : ClusterQueue} {r : String} {rg : ResourceGroup}
    (h : rgByResource cq r = some rg) :
    rg ∈ cq.ResourceGroups ∧ r ∈ rg.CoveredResources := by
  unfold rgByResource at h
  refine ⟨List.mem_of_find?_eq_some h, ?_⟩
  have := List.find?_some h
  simpa using this

theorem psaAppend_status_none {psa : PodSetAssignment} {flavors : ResourceAssignment}
    {status : Option Status}
    (h : (PodSetAssignment.append psa flavors status).Status = none) :
    psa.Status = none ∧ status = none := by
  simp only [PodSetAssignment.append] at h
  rcases hps : psa.Status with _ | s0 <;> rcases hst : status with _ | s <;>
    rw [hps, hst] at h
  · exact ⟨rfl, rfl⟩
  · exact Option.noConfusion h
  · exact Option.noConfusion h
  · exact Option.noConfusion h

theorem psaAppend_flavors (psa : PodSetAssignment) (flavors : ResourceAssignment)
    (status : Option Status) :
    (PodSetAssignment.append psa flavors status).Flavors =
      flavors.foldl (fun ra p => RAinsert ra p.1 p.2) psa.Flavors := rfl

section PsLoop

variable (resourceFlavors : String → Option (List (String × String) × List Taint))
  (cq : ClusterQueue) (usage : String → String → Qty) (spec : PodSpec)
  (allRequests : Requests)

theorem psLoop_invariants :
    ∀ (reqList : Requests) (psa : PodSetAssignment),
      (∀ e ∈ reqList, e ∈ allRequests) →
      (∀ r fa, (r, fa) ∈ psa.Flavors → entryJustified cq usage allRequests r fa) →
      (psa.Status = none → ∀ r fa, (r, fa) ∈ psa.Flavors → fa.Mode = .Fit) →
      (∀ r fa,
        (r, fa) ∈ (psLoop resourceFlavors cq usage spec allRequests psa reqList).Flavors →
        entryJustified cq usage allRequests r fa) ∧
      ((psLoop resourceFlavors cq usage spec allRequests psa reqList).Status = none →
        ∀ r fa,
          (r, fa) ∈ (psLoop resourceFlavors cq usage spec allRequests psa reqList).Flavors →
          fa.Mode = .Fit) ∧
      (((psLoop resourceFlavors cq usage spec allRequests psa reqList).Flavors ≠ [] ∨
          (psLoop resourceFlavors cq usage spec allRequests psa reqList).Status = none) →
        ∀ r, ((∃ v, (r, v) ∈ reqList) ∨ (alookup psa.Flavors r).isSome) →
          (alookup (psLoop resourceFlavors cq usage spec allRequests psa reqList).Flavors
            r).isSome) ∧
      (psLoop resourceFlavors cq usage spec allRequests psa reqList).Name = psa.Name ∧
      (psLoop resourceFlavors cq usage spec allRequests psa reqList).Requests =
        psa.Requests := by
  intro reqList
  induction reqList with
  | nil =>
    intro psa _ hjust hfit
    refine ⟨hjust, hfit, ?_, rfl, rfl⟩
    intro _ r hr
    rcases hr with ⟨v, hv⟩ | hr
    · simp at hv
    · exact hr
  | cons p rest ih =>
    intro psa hsub hjust hfit
    rcases p with ⟨resName, val⟩
    have hsubrest : ∀ e ∈ rest, e ∈ allRequests :=
      fun e he => hsub e (List.mem_cons_of_mem _ he)
    have hhead : ((resName, val) : String × Qty) ∈ allRequests :=
      hsub _ (List.mem_cons_self _ _)
    by_cases hsk : (alookup psa.Flavors resName).isSome
    · simp only [psLoop]
      rw [if_pos hsk]
      rcases ih psa hsubrest hjust hfit with ⟨p1, p2, p3, p4, p5⟩
      refine ⟨p1, p2, ?_, p4, p5⟩
      intro hne r hr
      apply p3 hne
      rcases hr with ⟨v, hv⟩ | hr
      · rw [List.mem_cons] at hv
        rcases hv with hv | hv
        · right
          rw [Prod.mk.injEq] at hv
          rw [hv.1]
          exact hsk
        · exact Or.inl ⟨v, hv⟩
      · exact Or.inr hr
    · rcases hrg : rgByResource cq resName with _ | rg
      · simp only [psLoop]
        rw [if_neg hsk]
        simp only [hrg]
        refine ⟨?_, ?_, ?_, by trivial, by trivial⟩
        · intro r fa h; simp at h
        · intro _ r fa h; simp at h
        · intro hne
          simp at hne
      · have hrgmem := rgByResource_covers hrg
        by_cases hemp :
          (findFlavorForResourceGroup resourceFlavors cq usage rg allRequests spec).1.isEmpty
        · simp only [psLoop]
          rw [if_neg hsk]
          simp only [hrg]
          rw [if_pos hemp]
          refine ⟨?_, ?_, ?_, by trivial, by trivial⟩
          · intro r fa h; simp at h
          · intro _ r fa h; simp at h
          · intro hne
            rcases hne with hne | hne
            · simp at hne
            · exfalso
              simp only at hne
              apply findFlavorForResourceGroup_fail resourceFlavors cq usage spec rg
                allRequests resName val hhead hrgmem.2
              have h1 : (findFlavorForResourceGroup resourceFlavors cq usage rg
                  allRequests spec).1 = [] := List.isEmpty_iff.mp hemp
              rcases hpair : findFlavorForResourceGroup resourceFlavors cq usage rg
                allRequests spec with ⟨x, y⟩
              rw [hpair] at h1 hne
              simp only at h1 hne
              rw [h1, hne]
        · simp only [psLoop]
          rw [if_neg hsk]
          simp only [hrg]
          rw [if_neg hemp]
          set ffr := findFlavorForResourceGroup resourceFlavors cq usage rg allRequests spec
            with hffr
          have hjust2 : ∀ r fa, (r, fa) ∈ (psa.append ffr.1 ffr.2).Flavors →
              entryJustified cq usage allRequests r fa := by
            intro r fa h
            rw [psaAppend_flavors] at h
            rcases mem_mergeRA psa.Flavors r fa h with h2 | h2
            · exact hjust r fa h2
            · rcases findFlavorForResourceGroup_mem resourceFlavors cq usage spec rg
                allRequests r fa (by rw [← hffr]; exact h2)
                with ⟨fq, hfq, hname, hcov2, v, hv, st, hfit2⟩
              exact ⟨rg, hrgmem.1, hcov2, fq, hfq, hname, v, hv, st, hfit2⟩
          have hfit2 : (psa.append ffr.1 ffr.2).Status = none →
              ∀ r fa, (r, fa) ∈ (psa.append ffr.1 ffr.2).Flavors → fa.Mode = .Fit := by
            intro hst r fa h
            rcases psaAppend_status_none hst with ⟨hps, hff⟩
            rw [psaAppend_flavors] at h
            rcases mem_mergeRA psa.Flavors r fa h with h2 | h2
            · exact hfit hps r fa h2
            · apply findFlavorForResourceGroup_none resourceFlavors cq usage spec rg
                allRequests ffr.1 ?_ r fa h2
              rw [← hffr, ← hff]
          rcases ih (psa.append ffr.1 ffr.2) hsubrest hjust2 hfit2 with ⟨p1, p2, p3, p4, p5⟩
          refine ⟨p1, p2, ?_, by rw [p4]; rfl, by rw [p5]; rfl⟩
          intro hne r hr
          apply p3 hne
          rcases hr with ⟨v, hv⟩ | hr
          · rw [List.mem_cons] at hv
            rcases hv with hv | hv
            · right
              rw [Prod.mk.injEq] at hv
              rw [hv.1]
              rw [psaAppend_flavors]
              apply alookup_mergeRA_isSome
              right
              rcases findFlavorForResourceGroup_cover resourceFlavors cq usage spec rg
                allRequests with hcv | hcv
              · exfalso
                apply hemp
                rw [← hffr] at hcv
                rw [hcv]
                rfl
              · have hmemf : ((resName, val) : String × Qty) ∈
                    filterRequestedResources allRequests rg.CoveredResources := by
                  unfold filterRequestedResources
                  rw [List.mem_filter]
                  exact ⟨hhead, by simpa using hrgmem.2⟩
                have := hcv resName val hmemf
                rw [← hffr] at this
                rcases Option.isSome_iff_exists.mp this with ⟨fa2, hfa2⟩
                exact ⟨fa2, alookup_mem hfa2⟩
            · exact Or.inl ⟨v, hv⟩
          · right
            rw [psaAppend_flavors]
            exact alookup_mergeRA_isSome psa.Flavors r (Or.inl hr)

theorem psLoop_keys_nodup :
    ∀ (reqList : Requests) (psa : PodSetAssignment),
      (keysOf psa.Flavors).Nodup →
      (keysOf (psLoop resourceFlavors cq usage spec allRequests psa reqList).Flavors).Nodup := by
  intro reqList
  induction reqList with
  | nil => intro psa h; exact h
  | cons p rest ih =>
    intro psa h
    rcases p with ⟨resName, val⟩
    by_cases hsk : (alookup psa.Flavors resName).isSome
    · simp only [psLoop]
      rw [if_pos hsk]
      exact ih psa h
    · rcases hrg : rgByResource cq resName with _ | rg
      · simp only [psLoop]
        rw [if_neg hsk]
        simp only [hrg]
        simp [keysOf]
      · by_cases hemp :
          (findFlavorForResourceGroup resourceFlavors cq usage rg allRequests spec).1.isEmpty
        · simp only [psLoop]
          rw [if_neg hsk]
          simp only [hrg]
          rw [if_pos hemp]
          simp [keysOf]
        · simp only [psLoop]
          rw [if_neg hsk]
          simp only [hrg]
          rw [if_neg hemp]
          apply ih
          rw [psaAppend_flavors]
          exact keysOf_mergeRA_nodup psa.Flavors h

end PsLoop

/-! ## Usage accounting of `Assignment.append` -/

theorem usageFold_not_mem (entries : ResourceAssignment) :
    ∀ (u : String → String → Qty) (reqs : Requests) (f r : String),
      r ∉ keysOf entries →
      (entries.foldl (fun u2 p => addUsage u2 p.2.Name p.1 (alookup0 reqs p.1)) u) f r =
        u f r := by
  induction entries with
  | nil => intro u reqs f r _; rfl
  | cons p rest ih =>
    intro u reqs f r hr
    rcases p with ⟨r0, fa0⟩
    simp only [keysOf, List.map_cons, List.mem_cons] at hr
    push_neg at hr
    rw [List.foldl_cons]
    rw [ih _ reqs f r (by simpa [keysOf] using hr.2)]
    simp only [addUsage]
    rw [if_neg (by intro hc; exact hr.1 hc.2)]

theorem usageFold_eval (entries : ResourceAssignment) :
    ∀ (u : String → String → Qty) (reqs : Requests) (f r : String),
      (keysOf entries).Nodup →
      (entries.foldl (fun u2 p => addUsage u2 p.2.Name p.1 (alookup0 reqs p.1)) u) f r =
        u f r + (match alookup entries r with
          | some fa => if fa.Name = f then alookup0 reqs r else 0
          | none => 0) := by
  induction entries with
  | nil => intro u reqs f r _; simp [alookup_nil]
  | cons p rest ih =>
    intro u reqs f r hn
    rcases p with ⟨r0, fa0⟩
    simp only [keysOf, List.map_cons, List.nodup_cons] at hn
    rw [List.foldl_cons]
    by_cases hr : r0 = r
    · subst hr
      rw [usageFold_not_mem rest _ reqs f r0 (by simpa [keysOf] using hn.1)]
      rw [alookup_cons, if_pos rfl]
      by_cases hf : f = fa0.Name
      · simp [addUsage, hf]
      · simp [addUsage, hf, Ne.symm hf]
    · rw [alookup_cons, if_neg hr]
      rw [ih _ reqs f r (by simpa [keysOf] using hn.2)]
      simp only [addUsage]
      rw [if_neg (by intro hc; exact hr hc.2.symm)]

theorem append_usage_eval (a : Assignment) (reqs : Requests) (psa : PodSetAssignment)
    (hn : (keysOf psa.Flavors).Nodup) (f r : String) :
    (a.append reqs psa).usage f r = a.usage f r +
      (match alookup psa.Flavors r with
        | some fa => if fa.Name = f then alookup0 reqs r else 0
        | none => 0) :=
  usageFold_eval psa.Flavors a.usage reqs f r hn

/-! ## Representative-mode extraction lemmas -/

theorem foldl_modeMin_all_fit (ms : List FlavorAssignmentMode)
    (h : ∀ m ∈ ms, m = .Fit) : modeListMin ms = .Fit := by
  unfold modeListMin
  induction ms with
  | nil => rfl
  | cons m rest ih =>
    rw [List.foldl_cons]
    rw [h m (List.mem_cons_self _ _)]
    exact ih (fun m2 hm2 => h m2 (List.mem_cons_of_mem _ hm2))

theorem psa_rep_fit_entries (psa : PodSetAssignment)
    (hstat : psa.Status = none → ∀ r fa, (r, fa) ∈ psa.Flavors → fa.Mode = .Fit)
    (hrep : psa.RepresentativeMode = .Fit) :
    ∀ r fa, (r, fa) ∈ psa.Flavors → fa.Mode = .Fit := by
  intro r fa hm
  rcases hps : psa.Status with _ | s
  · exact hstat hps r fa hm
  · unfold PodSetAssignment.RepresentativeMode at hrep
    rw [hps] at hrep
    by_cases hemp : psa.Flavors.isEmpty
    · rw [if_pos hemp] at hrep
      exact FlavorAssignmentMode.noConfusion hrep
    · rw [if_neg hemp] at hrep
      have heq : psa.Flavors.foldl (fun m p => modeMin m p.2.Mode) .Fit =
          modeListMin (psa.Flavors.map (fun p => p.2.Mode)) := by
        rw [modeListMin, List.foldl_map]
      rw [heq] at hrep
      exact (foldl_modeMin_eq_fit _ _ hrep).2 fa.Mode
        (List.mem_map.mpr ⟨(r, fa), hm, rfl⟩)

theorem assignment_rep_fit (a : Assignment) (h : a.RepresentativeMode = .Fit) :
    allPodSetsFit a := by
  intro psa hpsa
  unfold Assignment.RepresentativeMode at h
  by_cases hemp : a.PodSets.isEmpty
  · rw [if_pos hemp] at h
    exact FlavorAssignmentMode.noConfusion h
  · rw [if_neg hemp] at h
    have heq : a.PodSets.foldl (fun m ps => modeMin m ps.RepresentativeMode) .Fit =
        modeListMin (a.PodSets.map PodSetAssignment.RepresentativeMode) := by
      rw [modeListMin, List.foldl_map]
    rw [heq] at h
    exact (foldl_modeMin_eq_fit _ _ h).2 _ (List.mem_map.mpr ⟨psa, hpsa, rfl⟩)

theorem fitsResourceQuota_fit_bounds (fName rName : String) (val : Qty) (cq : ClusterQueue)
    (rQuota : ResourceQuota) (b : Qty) (st : Option Status)
    (h : fitsResourceQuota fName rName val cq rQuota = (.Fit, b, st)) :
    (∀ bl, rQuota.BorrowingLimit = some bl →
      cq.Usage fName rName + val ≤ rQuota.Nominal + bl) ∧
    (∀ c, cq.Cohort = some c →
      c.Usage fName rName + val ≤ c.RequestableResources fName rName) := by
  have hcandne : candidateMode val rQuota.Nominal ≠ .Fit := by
    unfold candidateMode
    split_ifs <;> simp
  have hcoh : fitsCohort fName rName val cq rQuota = (.Fit, b, st) →
      cohortUsedVal cq fName rName + val ≤
        cohortAvailableVal cq fName rName rQuota.Nominal := by
    intro hc
    by_contra hcon
    push_neg at hcon
    have hmsg : ¬ (cohortUsedVal cq fName rName + val -
        cohortAvailableVal cq fName rName rQuota.Nominal ≤ 0) := by linarith
    simp only [fitsCohort] at hc
    rw [if_neg hmsg] at hc
    rw [Prod.mk.injEq] at hc
    exact hcandne hc.1
  rcases hbl : rQuota.BorrowingLimit with _ | bl
  · constructor
    · intro bl2 hb2
      exact Option.noConfusion hb2
    · simp only [fitsResourceQuota, hbl] at h
      have hcc := hcoh h
      intro c hc
      rw [cohortUsedVal, cohortAvailableVal, hc] at hcc
      exact hcc
  · simp only [fitsResourceQuota, hbl] at h
    by_cases hover : cq.Usage fName rName + val > rQuota.Nominal + bl
    · rw [if_pos hover] at h
      rw [Prod.mk.injEq] at h
      exact absurd h.1 hcandne
    · rw [if_neg hover] at h
      push_neg at hover
      constructor
      · intro bl2 hb2
        rw [Option.some_inj] at hb2
        rw [← hb2]
        exact hover
      · have hcc := hcoh h
        intro c hc
        rw [cohortUsedVal, cohortAvailableVal, hc] at hcc
        exact hcc

/-! ## Keys of the pods pseudo-resource injection -/

theorem keysOf_setRequest_nodup {reqs : Requests} {k : String} {v : Qty}
    (h : (keysOf reqs).Nodup) : (keysOf (setRequest reqs k v)).Nodup := by
  unfold setRequest keysOf
  by_cases hs : (alookup reqs k).isSome
  · rw [if_pos hs]
    have heq : (reqs.map (fun p => if p.1 = k then (k, v) else p)).map (fun p => p.1) =
        reqs.map (fun p => p.1) := by
      rw [List.map_map]
      apply List.map_congr_left
      intro p _
      by_cases hpk : p.1 = k
      · simp [hpk]
      · simp [hpk]
    rw [heq]
    exact h
  · rw [if_neg hs]
    rw [List.map_append]
    rw [List.nodup_append]
    refine ⟨h, by simp, ?_⟩
    intro x hx
    simp only [List.map_cons, List.map_nil, List.mem_singleton]
    intro hxk
    rw [List.mem_map] at hx
    rcases hx with ⟨p, hp, hpx⟩
    apply hs
    rcases p with ⟨p1, p2⟩
    simp only at hpx
    rw [hxk] at hpx
    rw [hpx] at hp
    exact alookup_isSome_of_mem hp

/-! ## Invariants of the pod-set loop of `AssignFlavors` -/

section AssignLoop

variable (resourceFlavors : String → Option (List (String × String) × List Taint))
  (cq : ClusterQueue)

theorem assignLoop_basic_invariants :
    ∀ (podSets : List PodSetInfo) (a : Assignment),
      statusFitInv a → coverInv a →
      statusFitInv (assignLoop resourceFlavors cq a podSets) ∧
      coverInv (assignLoop resourceFlavors cq a podSets) := by
  intro podSets
  induction podSets with
  | nil => intro a h1 h2; exact ⟨h1, h2⟩
  | cons podSet rest ih =>
    intro a h1 h2
    simp only [assignLoop]
    set requests := (if (rgByResource cq resourcePods).isSome then
      setRequest podSet.Requests resourcePods podSet.Count else podSet.Requests) with hreqs
    set psa0 : PodSetAssignment :=
      { Name := podSet.Name, Flavors := [], Status := none, Requests := requests } with hpsa0
    set psa := psLoop resourceFlavors cq a.usage podSet.Spec requests psa0 requests with hpsa
    rcases psLoop_invariants resourceFlavors cq a.usage podSet.Spec requests requests psa0
      (fun e he => he) (by intro r fa h; simp [hpsa0] at h)
      (by intro _ r fa h; simp [hpsa0] at h) with ⟨p1, p2, p3, p4, p5⟩
    have h1a : statusFitInv (a.append requests psa) := by
      intro psa2 hmem hst r fa hfa
      simp only [Assignment.append] at hmem
      rw [List.mem_append] at hmem
      rcases hmem with hmem | hmem
      · exact h1 psa2 hmem hst r fa hfa
      · rw [List.mem_singleton] at hmem
        subst hmem
        exact p2 hst r fa hfa
    have h2a : coverInv (a.append requests psa) := by
      intro psa2 hmem hne r v hrv
      simp only [Assignment.append] at hmem
      rw [List.mem_append] at hmem
      rcases hmem with hmem | hmem
      · exact h2 psa2 hmem hne r v hrv
      · rw [List.mem_singleton] at hmem
        subst hmem
        apply p3 hne
        left
        refine ⟨v, ?_⟩
        rw [p5] at hrv
        exact hrv
    by_cases hbreak : ¬ requests.isEmpty ∧ psa.Flavors.isEmpty
    · rw [if_pos hbreak]
      exact ⟨h1a, h2a⟩
    · rw [if_neg hbreak]
      exact ih (a.append requests psa) h1a h2a

theorem assignLoop_usage_invariant
    (hdisj : ∀ rg1 ∈ cq.ResourceGroups, ∀ rg2 ∈ cq.ResourceGroups,
      ∀ r : String, r ∈ rg1.CoveredResources → r ∈ rg2.CoveredResources → rg1 = rg2)
    (hfnames : ∀ rg ∈ cq.ResourceGroups, (rg.Flavors.map (fun fq => fq.Name)).Nodup) :
    ∀ (podSets : List PodSetInfo) (a : Assignment),
      (∀ ps ∈ podSets, (keysOf ps.Requests).Nodup) →
      usageJustifiedInv cq a →
      usageJustifiedInv cq (assignLoop resourceFlavors cq a podSets) := by
  intro podSets
  induction podSets with
  | nil => intro a _ h; exact h
  | cons podSet rest ih =>
    intro a hkeys hinv
    simp only [assignLoop]
    set requests := (if (rgByResource cq resourcePods).isSome then
      setRequest podSet.Requests resourcePods podSet.Count else podSet.Requests) with hreqs
    have hkeysreq : (keysOf requests).Nodup := by
      rw [hreqs]
      by_cases hp : (rgByResource cq resourcePods).isSome
      · rw [if_pos hp]
        exact keysOf_setRequest_nodup (hkeys podSet (List.mem_cons_self _ _))
      · rw [if_neg hp]
        exact hkeys podSet (List.mem_cons_self _ _)
    set psa0 : PodSetAssignment :=
      { Name := podSet.Name, Flavors := [], Status := none, Requests := requests } with hpsa0
    set psa := psLoop resourceFlavors cq a.usage podSet.Spec requests psa0 requests with hpsa
    rcases psLoop_invariants resourceFlavors cq a.usage podSet.Spec requests requests psa0
      (fun e he => he) (by intro r fa h; simp [hpsa0] at h)
      (by intro _ r fa h; simp [hpsa0] at h) with ⟨p1, p2, p3, p4, p5⟩
    have hnodup : (keysOf psa.Flavors).Nodup := by
      rw [hpsa]
      exact psLoop_keys_nodup resourceFlavors cq a.usage podSet.Spec requests requests psa0
        (by simp [hpsa0, keysOf])
    have hinv2 : usageJustifiedInv cq (a.append requests psa) := by
      intro hallfit f r
      have hallfit_a : allPodSetsFit a := by
        intro psa2 hmem
        apply hallfit
        simp only [Assignment.append]
        rw [List.mem_append]
        exact Or.inl hmem
      have hpsafit : psa.RepresentativeMode = .Fit := by
        apply hallfit
        simp only [Assignment.append]
        rw [List.mem_append]
        right
        simp
      rw [append_usage_eval a requests psa hnodup f r]
      rcases hlk : alookup psa.Flavors r with _ | fa
      all_goals simp only [hlk]
      · rcases hinv hallfit_a f r with hz | hw
        · left; rw [hz]; simp
        · right; simpa using hw
      · by_cases hname : fa.Name = f
        · rw [if_pos hname]
          have hmem := alookup_mem hlk
          have hmode : fa.Mode = .Fit := psa_rep_fit_entries psa p2 hpsafit r fa hmem
          rcases p1 r fa hmem with ⟨rg0, hrg0, hcov0, fq0, hfq0, hname0, v, hv, st, hfits⟩
          have hveq : alookup0 requests r = v :=
            alookup0_eq_of_mem_nodup hkeysreq hv
          rw [hveq]
          right
          rw [hmode] at hfits
          have hbounds := fitsResourceQuota_fit_bounds fa.Name r (v + a.usage fa.Name r)
            cq (quotaOf fq0.Resources r) fa.borrow st hfits
          constructor
          · intro rg hrg hcov fq hfq hfqname bl hbl
            have hrgeq : rg = rg0 := hdisj rg hrg rg0 hrg0 r hcov hcov0
            subst hrgeq
            have hfqeq : fq = fq0 := by
              apply List.inj_on_of_nodup_map (hfnames rg hrg) hfq hfq0
              rw [hfqname, ← hname, hname0]
            subst hfqeq
            have := hbounds.1 bl hbl
            rw [hname] at this
            linarith
          · intro c hc
            have := hbounds.2 c hc
            rw [hname] at this
            linarith
        · rw [if_neg hname]
          rcases hinv hallfit_a f r with hz | hw
          · left; rw [hz]; simp
          · right; simpa using hw
    by_cases hbreak : ¬ requests.isEmpty ∧ psa.Flavors.isEmpty
    · rw [if_pos hbreak]
      exact hinv2
    · rw [if_neg hbreak]
      exact ih (a.append requests psa)
        (fun ps hps => hkeys ps (List.mem_cons_of_mem _ hps)) hinv2

end AssignLoop

/-- C1: for every computed assignment, the whole-workload representative
mode is the minimum of the per-pod-set modes under NoFit < Preempt < Fit
(when pod sets were assigned; the empty case is C10), each pod set with
assigned flavors has the minimum mode over its flavors, and a Fit
representative mode gives every requested resource of every pod set a
flavor assignment with mode Fit. -/
theorem assignFlavors_representativeMode_spec
    (resourceFlavors : String → Option (List (String × String) × List Taint))
    (cq : ClusterQueue) (podSets : List PodSetInfo) :
    ((AssignFlavors resourceFlavors cq podSets).PodSets ≠ [] →
      (AssignFlavors resourceFlavors cq podSets).RepresentativeMode =
        modeListMin ((AssignFlavors resourceFlavors cq podSets).PodSets.map
          PodSetAssignment.RepresentativeMode)) ∧
    (∀ psa ∈ (AssignFlavors resourceFlavors cq podSets).PodSets, psa.Flavors ≠ [] →
      psa.RepresentativeMode = modeListMin (psa.Flavors.map (fun p => p.2.Mode))) ∧
    ((AssignFlavors resourceFlavors cq podSets).RepresentativeMode = .Fit →
      ∀ psa ∈ (AssignFlavors resourceFlavors cq podSets).PodSets,
        ∀ r v, (r, v) ∈ psa.Requests →
          ∃ fa, alookup psa.Flavors r = some fa ∧ fa.Mode = .Fit) := by
  have hinv := assignLoop_basic_invariants resourceFlavors cq podSets
    { PodSets := [], TotalBorrow := [], usage := fun _ _ => 0 }
    (by intro psa h; simp at h) (by intro psa h; simp at h)
  refine ⟨?_, ?_, ?_⟩
  · intro hne
    unfold Assignment.RepresentativeMode
    rw [if_neg (by simpa using hne)]
    rw [modeListMin, List.foldl_map]
  · intro psa hpsa hne
    rcases hst : psa.Status with _ | st
    · have hfit := hinv.1 psa hpsa hst
      have hrhs : modeListMin (psa.Flavors.map (fun p => p.2.Mode)) = .Fit := by
        apply foldl_modeMin_all_fit
        intro m hm
        rcases List.mem_map.mp hm with ⟨p, hp, hpm⟩
        rw [← hpm]
        exact hfit p.1 p.2 hp
      simp only [PodSetAssignment.RepresentativeMode, hst, hrhs]
    · simp only [PodSetAssignment.RepresentativeMode, hst]
      rw [if_neg (by simpa using hne)]
      rw [modeListMin, List.foldl_map]
  · intro hrep psa hpsa r v hrv
    have hpsafit : psa.RepresentativeMode = .Fit := assignment_rep_fit _ hrep psa hpsa
    have hcover : (alookup psa.Flavors r).isSome := by
      apply hinv.2 psa hpsa ?_ r v hrv
      rcases hst : psa.Status with _ | st
      · exact Or.inr rfl
      · left
        intro hfe
        unfold PodSetAssignment.RepresentativeMode at hpsafit
        rw [hst] at hpsafit
        rw [if_pos (by simp [hfe])] at hpsafit
        exact FlavorAssignmentMode.noConfusion hpsafit
    rcases Option.isSome_iff_exists.mp hcover with ⟨fa, hfa⟩
    exact ⟨fa, hfa, psa_rep_fit_entries psa (hinv.1 psa hpsa) hpsafit r fa (alookup_mem hfa)⟩

/-- Witness for C1: a one-pod-set workload that fits; the representative
mode is the minimum over the pod-set modes. -/
theorem assignFlavors_representativeMode_spec_witness :
    (AssignFlavors (fun n => if n = "one" then some ([], []) else none)
        { ResourceGroups :=
            [{ CoveredResources := ["cpu"],
               Flavors := [{ Name := "one", Resources := [("cpu", ⟨4000, none⟩)] }],
               LabelKeys := [] }],
          Usage := fun _ _ => 0, Cohort := none }
        [{ Name := "main", Count := 1,
           Spec := { nodeSelector := [], affinityTerms := none, tolerations := [] },
           Requests := [("cpu", 1000)] }]).RepresentativeMode =
      modeListMin ((AssignFlavors (fun n => if n = "one" then some ([], []) else none)
        { ResourceGroups :=
            [{ CoveredResources := ["cpu"],
               Flavors := [{ Name := "one", Resources := [("cpu", ⟨4000, none⟩)] }],
               LabelKeys := [] }],
          Usage := fun _ _ => 0, Cohort := none }
        [{ Name := "main", Count := 1,
           Spec := { nodeSelector := [], affinityTerms := none, tolerations := [] },
           Requests := [("cpu", 1000)] }]).PodSets.map
        PodSetAssignment.RepresentativeMode) :=
  (assignFlavors_representativeMode_spec (fun n => if n = "one" then some ([], []) else none)
    { ResourceGroups :=
        [{ CoveredResources := ["cpu"],
           Flavors := [{ Name := "one", Resources := [("cpu", ⟨4000, none⟩)] }],
           LabelKeys := [] }],
      Usage := fun _ _ => 0, Cohort := none }
    [{ Name := "main", Count := 1,
       Spec := { nodeSelector := [], affinityTerms := none, tolerations := [] },
       Requests := [("cpu", 1000)] }]).1 (by decide)

/-- C3: when the computed assignment has representative mode Fit, the
workload's accumulated per-flavor, per-resource usage — including the
accumulation of earlier pod sets into later pod sets' fit checks — stays
within Nominal + BorrowingLimit on top of the ClusterQueue usage (for
every covering group's quota with a borrowing limit set) and within the
cohort's requestable resources on top of the cohort usage.  The
hypotheses state that the ClusterQueue snapshot is well formed: no two
distinct groups cover the same resource, no group lists a flavor name
twice, no pod set lists a resource twice. -/
theorem assignFlavors_fit_within_limits
    (resourceFlavors : String → Option (List (String × String) × List Taint))
    (cq : ClusterQueue) (podSets : List PodSetInfo)
    (hdisj : ∀ rg1 ∈ cq.ResourceGroups, ∀ rg2 ∈ cq.ResourceGroups,
      ∀ r : String, r ∈ rg1.CoveredResources → r ∈ rg2.CoveredResources → rg1 = rg2)
    (hfnames : ∀ rg ∈ cq.ResourceGroups, (rg.Flavors.map (fun fq => fq.Name)).Nodup)
    (hreq : ∀ ps ∈ podSets, (keysOf ps.Requests).Nodup)
    (hfit : (AssignFlavors resourceFlavors cq podSets).RepresentativeMode = .Fit) :
    ∀ f r, (AssignFlavors resourceFlavors cq podSets).usage f r = 0 ∨
      usageWithinLimits cq f r ((AssignFlavors resourceFlavors cq podSets).usage f r) := by
  have hinv := assignLoop_usage_invariant resourceFlavors cq hdisj hfnames podSets
    { PodSets := [], TotalBorrow := [], usage := fun _ _ => 0 } hreq
    (fun _ f r => Or.inl rfl)
  exact hinv (assignment_rep_fit _ hfit)

/-- Witness for C3: two pod sets committing 1000m CPU each to the same
flavor, with a borrowing limit and a cohort set; the accumulated usage of
2000m respects both bounds. -/
theorem assignFlavors_fit_within_limits_witness :
    (AssignFlavors (fun n => if n = "one" then some ([], []) else none)
        { ResourceGroups :=
            [{ CoveredResources := ["cpu"],
               Flavors := [{ Name := "one", Resources := [("cpu", ⟨10000, some 5000⟩)] }],
               LabelKeys := [] }],
          Usage := fun f r => if f = "one" ∧ r = "cpu" then 2000 else 0,
          Cohort := some
            { Usage := fun f r => if f = "one" ∧ r = "cpu" then 3000 else 0,
              RequestableResources := fun f r => if f = "one" ∧ r = "cpu" then 20000 else 0 } }
        [{ Name := "driver", Count := 1,
           Spec := { nodeSelector := [], affinityTerms := none, tolerations := [] },
           Requests := [("cpu", 1000)] },
         { Name := "workers", Count := 1,
           Spec := { nodeSelector := [], affinityTerms := none, tolerations := [] },
           Requests := [("cpu", 1000)] }]).usage "one" "cpu" = 0 ∨
      usageWithinLimits
        { ResourceGroups :=
            [{ CoveredResources := ["cpu"],
               Flavors := [{ Name := "one", Resources := [("cpu", ⟨10000, some 5000⟩)] }],
               LabelKeys := [] }],
          Usage := fun f r => if f = "one" ∧ r = "cpu" then 2000 else 0,
          Cohort := some
            { Usage := fun f r => if f = "one" ∧ r = "cpu" then 3000 else 0,
              RequestableResources := fun f r => if f = "one" ∧ r = "cpu" then 20000 else 0 } }
        "one" "cpu"
        ((AssignFlavors (fun n => if n = "one" then some ([], []) else none)
          { ResourceGroups :=
              [{ CoveredResources := ["cpu"],
                 Flavors := [{ Name := "one", Resources := [("cpu", ⟨10000, some 5000⟩)] }],
                 LabelKeys := [] }],
            Usage := fun f r => if f = "one" ∧ r = "cpu" then 2000 else 0,
            Cohort := some
              { Usage := fun f r => if f = "one" ∧ r = "cpu" then 3000 else 0,
                RequestableResources := fun f r => if f = "one" ∧ r = "cpu" then 20000 else 0 } }
          [{ Name := "driver", Count := 1,
             Spec := { nodeSelector := [], affinityTerms := none, tolerations := [] },
             Requests := [("cpu", 1000)] },
           { Name := "workers", Count := 1,
             Spec := { nodeSelector := [], affinityTerms := none, tolerations := [] },
             Requests := [("cpu", 1000)] }]).usage "one" "cpu") :=
  assignFlavors_fit_within_limits (fun n => if n = "one" then some ([], []) else none)
    { ResourceGroups :=
        [{ CoveredResources := ["cpu"],
           Flavors := [{ Name := "one", Resources := [("cpu", ⟨10000, some 5000⟩)] }],
           LabelKeys := [] }],
      Usage := fun f r => if f = "one" ∧ r = "cpu" then 2000 else 0,
      Cohort := some
        { Usage := fun f r => if f = "one" ∧ r = "cpu" then 3000 else 0,
          RequestableResources := fun f r => if f = "one" ∧ r = "cpu" then 20000 else 0 } }
    [{ Name := "driver", Count := 1,
       Spec := { nodeSelector := [], affinityTerms := none, tolerations := [] },
       Requests := [("cpu", 1000)] },
     { Name := "workers", Count := 1,
       Spec := { nodeSelector := [], affinityTerms := none, tolerations := [] },
       Requests := [("cpu", 1000)] }]
    (by
      intro rg1 h1 rg2 h2 r hr1 hr2
      rw [List.mem_singleton] at h1 h2
      rw [h1, h2])
    (by
      intro rg h
      rw [List.mem_singleton] at h
      subst h
      decide)
    (by
      intro ps h
      rcases List.mem_cons.mp h with h | h
      · subst h; decide
      · rw [List.mem_singleton] at h
        subst h
        decide)
    (by decide)
    "one" "cpu"

/-- C8 counterexample: a pod set requesting cpu and gpu against a
ClusterQueue whose single group covers only cpu, through a flavor absent
from the catalogue.  The gpu resource is not covered by any group, yet
the returned status reason is "flavor missing not found": the per-resource
loop fails on cpu before ever reaching gpu, so the claimed
"resource … unavailable in ClusterQueue" reason is not returned for every
pod set requesting an uncovered resource. -/
theorem resourceUnavailable_counterexample :
    rgByResource
        { ResourceGroups :=
            [{ CoveredResources := ["cpu"],
               Flavors := [{ Name := "missing", Resources := [("cpu", ⟨10000, none⟩)] }],
               LabelKeys := [] }],
          Usage := fun _ _ => 0, Cohort := none } "gpu" = none ∧
    ((AssignFlavors (fun _ => none)
        { ResourceGroups :=
            [{ CoveredResources := ["cpu"],
               Flavors := [{ Name := "missing", Resources := [("cpu", ⟨10000, none⟩)] }],
               LabelKeys := [] }],
          Usage := fun _ _ => 0, Cohort := none }
        [{ Name := "main", Count := 1,
           Spec := { nodeSelector := [], affinityTerms := none, tolerations := [] },
           Requests := [("cpu", 1000), ("gpu", 2)] }]).PodSets.map
      (fun p => p.Status)) = [some { reasons := ["flavor missing not found"] }] ∧
    ((AssignFlavors (fun _ => none)
        { ResourceGroups :=
            [{ CoveredResources := ["cpu"],
               Flavors := [{ Name := "missing", Resources := [("cpu", ⟨10000, none⟩)] }],
               LabelKeys := [] }],
          Usage := fun _ _ => 0, Cohort := none }
        [{ Name := "main", Count := 1,
           Spec := { nodeSelector := [], affinityTerms := none, tolerations := [] },
           Requests := [("cpu", 1000), ("gpu", 2)] }]).PodSets.map
      (fun p => p.Status)) ≠
      [some { reasons := ["resource gpu unavailable in ClusterQueue"] }] := by
  refine ⟨rfl, rfl, ?_⟩
  decide

/-- C8 (amended): when the per-resource loop of `AssignFlavors` reaches a
requested resource `r` that no resource group of the ClusterQueue covers —
each resource evaluated before it having found a non-empty flavor
assignment through its group — the pod-set assignment comes back with no
flavors, the single reason "resource r unavailable in ClusterQueue" and
representative mode NoFit, the remaining resources left unevaluated. -/
theorem resourceUnavailable_amended
    (resourceFlavors : String → Option (List (String × String) × List Taint))
    (cq : ClusterQueue) (usage : String → String → Qty) (spec : PodSpec)
    (allRequests : Requests) :
    ∀ (pre : Requests),
      (∀ e ∈ pre, ∃ rg, rgByResource cq e.1 = some rg ∧
        (findFlavorForResourceGroup resourceFlavors cq usage rg allRequests spec).1 ≠ []) →
      ∀ (psa : PodSetAssignment) (r : String) (v : Qty) (rest : Requests),
        rgByResource cq r = none →
        alookup psa.Flavors r = none →
        (psLoop resourceFlavors cq usage spec allRequests psa
            (pre ++ (r, v) :: rest)).Flavors = [] ∧
        (psLoop resourceFlavors cq usage spec allRequests psa
            (pre ++ (r, v) :: rest)).Status =
          some { reasons := ["resource " ++ r ++ " unavailable in ClusterQueue"] } ∧
        (psLoop resourceFlavors cq usage spec allRequests psa
            (pre ++ (r, v) :: rest)).RepresentativeMode = .NoFit := by
  intro pre
  induction pre with
  | nil =>
    intro _ psa r v rest hun hlk
    rw [List.nil_append]
    simp only [psLoop]
    rw [if_neg (by simp [hlk])]
    refine ⟨?_, ?_, ?_⟩ <;> simp [hun, PodSetAssignment.RepresentativeMode]
  | cons e pre2 ih =>
    intro hpre psa r v rest hun hlk
    rcases e with ⟨r2, v2⟩
    rcases hpre (r2, v2) (List.mem_cons_self _ _) with ⟨rg, hrg0, hne⟩
    have hrg : rgByResource cq r2 = some rg := hrg0
    rw [List.cons_append]
    simp only [psLoop]
    by_cases hsk : (alookup psa.Flavors r2).isSome
    · rw [if_pos hsk]
      exact ih (fun e2 he2 => hpre e2 (List.mem_cons_of_mem _ he2)) psa r v rest hun hlk
    · rw [if_neg hsk]
      simp only [hrg]
      have hempf :
          ¬ ((findFlavorForResourceGroup resourceFlavors cq usage rg
            allRequests spec).1.isEmpty = true) := by
        rcases hffl :
            (findFlavorForResourceGroup resourceFlavors cq usage rg allRequests spec).1
          with _ | ⟨p, t⟩
        · exact absurd hffl hne
        · simp
      rw [if_neg hempf]
      apply ih (fun e2 he2 => hpre e2 (List.mem_cons_of_mem _ he2)) _ r v rest hun
      rcases hlk2 : alookup (PodSetAssignment.append psa
          (findFlavorForResourceGroup resourceFlavors cq usage rg allRequests spec).1
          (findFlavorForResourceGroup resourceFlavors cq usage rg
            allRequests spec).2).Flavors r with _ | fa
      · rfl
      · exfalso
        have hmem := alookup_mem hlk2
        rw [psaAppend_flavors] at hmem
        rcases mem_mergeRA psa.Flavors r fa hmem with hm | hm
        · have hs := alookup_isSome_of_mem hm
          rw [hlk] at hs
          simp at hs
        · rcases findFlavorForResourceGroup_mem resourceFlavors cq usage spec rg
            allRequests r fa hm with ⟨fq, hfq, hname, hcov, hrest2⟩
          have hrgmem := (rgByResource_covers hrg).1
          unfold rgByResource at hun
          rw [List.find?_eq_none] at hun
          have hnc := hun rg hrgmem
          simp at hnc
          exact hnc hcov

/-- Witness for C8 (amended): cpu resolves to a flavor, then the loop
reaches the uncovered gpu and returns the single unavailable reason with
mode NoFit. -/
theorem resourceUnavailable_amended_witness :
    (psLoop (fun n => if n = "one" then some ([], []) else none)
        { ResourceGroups :=
            [{ CoveredResources := ["cpu"],
               Flavors := [{ Name := "one", Resources := [("cpu", ⟨10000, none⟩)] }],
               LabelKeys := [] }],
          Usage := fun _ _ => 0, Cohort := none }
        (fun _ _ => 0)
        { nodeSelector := [], affinityTerms := none, tolerations := [] }
        [("cpu", 1000), ("gpu", 2)]
        { Name := "main", Flavors := [], Status := none,
          Requests := [("cpu", 1000), ("gpu", 2)] }
        [("cpu", 1000), ("gpu", 2)]).Flavors = [] ∧
    (psLoop (fun n => if n = "one" then some ([], []) else none)
        { ResourceGroups :=
            [{ CoveredResources := ["cpu"],
               Flavors := [{ Name := "one", Resources := [("cpu", ⟨10000, none⟩)] }],
               LabelKeys := [] }],
          Usage := fun _ _ => 0, Cohort := none }
        (fun _ _ => 0)
        { nodeSelector := [], affinityTerms := none, tolerations := [] }
        [("cpu", 1000), ("gpu", 2)]
        { Name := "main", Flavors := [], Status := none,
          Requests := [("cpu", 1000), ("gpu", 2)] }
        [("cpu", 1000), ("gpu", 2)]).Status =
      some { reasons := ["resource gpu unavailable in ClusterQueue"] } ∧
    (psLoop (fun n => if n = "one" then some ([], []) else none)
        { ResourceGroups :=
            [{ CoveredResources := ["cpu"],
               Flavors := [{ Name := "one", Resources := [("cpu", ⟨10000, none⟩)] }],
               LabelKeys := [] }],
          Usage := fun _ _ => 0, Cohort := none }
        (fun _ _ => 0)
        { nodeSelector := [], affinityTerms := none, tolerations := [] }
        [("cpu", 1000), ("gpu", 2)]
        { Name := "main", Flavors := [], Status := none,
          Requests := [("cpu", 1000), ("gpu", 2)] }
        [("cpu", 1000), ("gpu", 2)]).RepresentativeMode = .NoFit :=
  resourceUnavailable_amended (fun n => if n = "one" then some ([], []) else none)
    { ResourceGroups :=
        [{ CoveredResources := ["cpu"],
           Flavors := [{ Name := "one", Resources := [("cpu", ⟨10000, none⟩)] }],
           LabelKeys := [] }],
      Usage := fun _ _ => 0, Cohort := none }
    (fun _ _ => 0)
    { nodeSelector := [], affinityTerms := none, tolerations := [] }
    [("cpu", 1000), ("gpu", 2)]
    [("cpu", 1000)]
    (by
      intro e he
      rw [List.mem_singleton] at he
      subst he
      exact ⟨_, rfl, by decide⟩)
    { Name := "main", Flavors := [], Status := none,
      Requests := [("cpu", 1000), ("gpu", 2)] }
    "gpu" 2 []
    rfl
    rfl

end Kueue
